import Mathlib

set_option maxRecDepth 40000

/-!
Verification development for the geoviz-dashboard GeoJSON extraction engine.

The definitions below are a shallow embedding of the JavaScript source:
  - universal-geojson-handler.js : handleGeoJSONFile, findPotentialFeatures,
    convertEsriGeometry
  - the large-file handler (handleLargeGeoJSONFile, extractFeaturesFromFile,
    extractCompleteFeatures, processWithChunks, processGiantFileSimplified,
    fixBrokenJson)

Files are modelled as `List Char` (their byte content, reads never fail for an
existing file); JavaScript values produced by JSON.parse are modelled by the
inductive `JSON` below; `undefined` is modelled as `Option.none`; JavaScript
exceptions are modelled with `Except`.  Numbers are modelled as exact rationals
(every JSON numeral denotes a rational); no claim depends on float rounding.
-/

/-- A parsed JSON value (the result of JSON.parse). -/
inductive JSON where
  | null : JSON
  | bool (b : Bool) : JSON
  | num (q : ℚ) : JSON
  | str (s : String) : JSON
  | arr (items : List JSON) : JSON
  | obj (fields : List (String × JSON)) : JSON
deriving Repr

/-- JavaScript truthiness of a JSON value. -/
def truthy : JSON → Bool
  | .null => false
  | .bool b => b
  | .num q => decide (q ≠ 0)
  | .str s => decide (s ≠ "")
  | .arr _ => true
  | .obj _ => true

/-- JavaScript truthiness where `none` models `undefined`. -/
def truthyO : Option JSON → Bool
  | none => false
  | some j => truthy j

/-- Property access `j.k` (objects only; keys are unique by construction). -/
def getField : JSON → String → Option JSON
  | .obj fs, k => fs.lookup k
  | _, _ => none

/-- Property access through an optional receiver. -/
def getFieldO (j : Option JSON) (k : String) : Option JSON :=
  j.bind (fun v => getField v k)

/-- Property assignment `j[k] = v`: replace in place or append (JS key order). -/
def insertField (fields : List (String × JSON)) (k : String) (v : JSON) :
    List (String × JSON) :=
  if fields.any (fun p => p.1 == k) then
    fields.map (fun p => if p.1 == k then (k, v) else p)
  else fields ++ [(k, v)]

/-- Is the option a given string? (models JS === against a string literal). -/
def isStr (o : Option JSON) (s : String) : Bool :=
  match o with
  | some (.str t) => t == s
  | _ => false

/-- The character `\x7b` (left brace). -/
def lbrace : Char := Char.ofNat 123

/-- The character `\x7d` (right brace). -/
def rbrace : Char := Char.ofNat 125

/-- JSON whitespace. -/
def isWs (c : Char) : Bool := c == ' ' || c == '\t' || c == '\n' || c == '\r'

/-- Drop leading JSON whitespace. -/
def skipWs : List Char → List Char
  | [] => []
  | c :: cs => if isWs c then skipWs cs else c :: cs

/-- Decimal digit test. -/
def isDigit (c : Char) : Bool := '0' ≤ c && c ≤ '9'

/-- Value of a decimal digit. -/
def digitVal (c : Char) : Nat := c.toNat - 48

/-- Value of a hex digit, if any. -/
def hexVal (c : Char) : Option Nat :=
  if '0' ≤ c && c ≤ '9' then some (c.toNat - 48)
  else if 'a' ≤ c && c ≤ 'f' then some (c.toNat - 87)
  else if 'A' ≤ c && c ≤ 'F' then some (c.toNat - 55)
  else none

/-- Simple escape characters in JSON strings. -/
def escChar : Char → Option Char
  | '"' => some '"'
  | '\\' => some '\\'
  | '/' => some '/'
  | 'b' => some (Char.ofNat 8)
  | 'f' => some (Char.ofNat 12)
  | 'n' => some '\n'
  | 'r' => some (Char.ofNat 13)
  | 't' => some '\t'
  | _ => none

/-- Parse the body of a JSON string literal (after the opening quote),
returning the decoded characters and the input after the closing quote. -/
def parseStringBody : List Char → Option (List Char × List Char)
  | [] => none
  | '"' :: cs => some ([], cs)
  | '\\' :: 'u' :: h1 :: h2 :: h3 :: h4 :: cs => do
      let n1 ← hexVal h1
      let n2 ← hexVal h2
      let n3 ← hexVal h3
      let n4 ← hexVal h4
      let (s, r) ← parseStringBody cs
      pure (Char.ofNat (((n1 * 16 + n2) * 16 + n3) * 16 + n4) :: s, r)
  | '\\' :: e :: cs => do
      let ch ← escChar e
      let (s, r) ← parseStringBody cs
      pure (ch :: s, r)
  | c :: cs =>
      if c.toNat < 32 then none
      else do
        let (s, r) ← parseStringBody cs
        pure (c :: s, r)

/-- Read a run of decimal digits, returning value, digit count and the rest. -/
def digitRun : List Char → Nat → Nat → Nat × Nat × List Char
  | [], acc, n => (acc, n, [])
  | c :: cs, acc, n =>
      if isDigit c then digitRun cs (acc * 10 + digitVal c) (n + 1)
      else (acc, n, c :: cs)

/-- Rational power of ten. -/
def pow10 (n : Nat) : ℚ := (10 : ℚ) ^ n

/-- Parse a JSON number (strict grammar: no leading zeros, optional fraction
and exponent), returning its exact rational value. -/
def parseNumber (cs : List Char) : Option (ℚ × List Char) :=
  let (sgn, cs1) : ℚ × List Char :=
    match cs with
    | '-' :: rest => (-1, rest)
    | _ => (1, cs)
  match cs1 with
  | [] => none
  | c :: _ =>
    if !isDigit c then none
    else
      let (ival, ilen, cs2) := digitRun cs1 0 0
      -- leading-zero rule: "0" stands alone, otherwise first digit nonzero
      if c == '0' && ilen ≠ 1 then none
      else
        let (fval, flen, cs3) : ℚ × Nat × List Char :=
          match cs2 with
          | '.' :: rest =>
              let (f, n, r) := digitRun rest 0 0
              ((f : ℚ) / pow10 n, n, r)
          | _ => (0, 1, cs2)
        if flen = 0 then none
        else
          let base : ℚ := sgn * ((ival : ℚ) + (match cs2 with
            | '.' :: _ => fval
            | _ => 0))
          match cs3 with
          | 'e' :: rest => parseExp base rest
          | 'E' :: rest => parseExp base rest
          | _ => some (base, cs3)
where
  /-- Parse the exponent part after `e`/`E`. -/
  parseExp (base : ℚ) (rest : List Char) : Option (ℚ × List Char) :=
    let (esgn, r1) : Bool × List Char :=
      match rest with
      | '-' :: r => (true, r)
      | '+' :: r => (false, r)
      | _ => (false, rest)
    let (e, elen, r2) := digitRun r1 0 0
    if elen = 0 then none
    else some (if esgn then base / pow10 e else base * pow10 e, r2)

mutual

/-- Parse one JSON value (fuel-indexed recursive descent). -/
def parseVal : Nat → List Char → Option (JSON × List Char)
  | 0, _ => none
  | f + 1, cs0 =>
    match skipWs cs0 with
    | [] => none
    | c :: rest =>
      if c = lbrace then
        match skipWs rest with
        | c2 :: rest2 =>
          if c2 = rbrace then some (.obj [], rest2)
          else parseFields f (c2 :: rest2) []
        | [] => none
      else if c = '[' then
        match skipWs rest with
        | ']' :: rest2 => some (.arr [], rest2)
        | other => parseItems f other []
      else if c = '"' then
        match parseStringBody rest with
        | some (s, r) => some (.str (String.mk s), r)
        | none => none
      else if c = 't' then
        match rest with
        | 'r' :: 'u' :: 'e' :: r => some (.bool true, r)
        | _ => none
      else if c = 'f' then
        match rest with
        | 'a' :: 'l' :: 's' :: 'e' :: r => some (.bool false, r)
        | _ => none
      else if c = 'n' then
        match rest with
        | 'u' :: 'l' :: 'l' :: r => some (.null, r)
        | _ => none
      else
        match parseNumber (c :: rest) with
        | some (q, r) => some (.num q, r)
        | none => none

/-- Parse object members starting at a key (input starts at a non-ws char). -/
def parseFields : Nat → List Char → List (String × JSON) →
    Option (JSON × List Char)
  | 0, _, _ => none
  | f + 1, cs, acc =>
    match cs with
    | '"' :: rest =>
      match parseStringBody rest with
      | some (k, r1) =>
        match skipWs r1 with
        | ':' :: r2 =>
          match parseVal f r2 with
          | some (v, r3) =>
            let acc2 := insertField acc (String.mk k) v
            match skipWs r3 with
            | ',' :: r4 => parseFields f (skipWs r4) acc2
            | c :: r4 => if c = rbrace then some (.obj acc2, r4) else none
            | [] => none
          | none => none
        | _ => none
      | none => none
    | _ => none

/-- Parse array items (input starts at the first item). -/
def parseItems : Nat → List Char → List JSON → Option (JSON × List Char)
  | 0, _, _ => none
  | f + 1, cs, acc =>
    match parseVal f cs with
    | some (v, r1) =>
      match skipWs r1 with
      | ',' :: r2 => parseItems f r2 (acc ++ [v])
      | ']' :: r2 => some (.arr (acc ++ [v]), r2)
      | _ => none
    | none => none

end

/-- JSON.parse: parse a complete document (trailing whitespace only). -/
def jsonParse (cs : List Char) : Option JSON :=
  match parseVal (cs.length + 1) cs with
  | some (v, rest) => if skipWs rest = [] then some v else none
  | none => none

/-! ## Boundary Scanner: extractCompleteFeatures (large-file handler) -/

/-- The acceptance test applied to each candidate object in
extractCompleteFeatures: `feature.type === 'Feature' && feature.properties &&
feature.geometry` after JSON.parse; `none` means the candidate is discarded. -/
def acceptFeature (s : List Char) : Option JSON :=
  match jsonParse s with
  | some f =>
      if isStr (getField f "type") "Feature" &&
         truthyO (getField f "properties") && truthyO (getField f "geometry")
      then some f else none
  | none => none

/-- One step of the quote/escape tracking in the forward scan, in source
order: the quote toggle runs first, then the escape update reads the NEW
`inString`. -/
def lexStep (inString escape : Bool) (c : Char) : Bool × Bool :=
  let inString' := if c = '"' && !escape then !inString else inString
  let escape' := if inString' && c = '\\' then !escape else false
  (inString', escape')

/-- State of the forward scan of extractCompleteFeatures. -/
structure ScanSt where
  inString : Bool
  escape : Bool
  depth : Int
  /-- start offset of the pending top-level object (`-1` in the source is
  `none` here) -/
  start : Option Nat
  features : List JSON
deriving Repr

/-- Initial forward-scan state. -/
def scanInit : ScanSt := ⟨false, false, 0, none, []⟩

/-- One character of the forward scan: quote/escape tracking, then brace-depth
bookkeeping and candidate extraction when not inside a string. -/
def scanStep (text : List Char) (i : Nat) (c : Char) (st : ScanSt) : ScanSt :=
  let (inString', escape') := lexStep st.inString st.escape c
  if inString' then { st with inString := inString', escape := escape' }
  else if c = lbrace then
    let start' := if st.depth = 0 then some i else st.start
    { st with inString := inString', escape := escape',
              depth := st.depth + 1, start := start' }
  else if c = rbrace then
    let depth' := st.depth - 1
    match st.start with
    | some s0 =>
        if depth' = 0 then
          let cand := (text.drop s0).take (i + 1 - s0)
          let features' :=
            match acceptFeature cand with
            | some f => st.features ++ [f]
            | none => st.features
          { st with inString := inString', escape := escape',
                    depth := depth', start := none, features := features' }
        else
          { st with inString := inString', escape := escape', depth := depth' }
    | none =>
        { st with inString := inString', escape := escape', depth := depth' }
  else { st with inString := inString', escape := escape' }

/-- Run the forward scan over `rest`, where `i` is the index of its head in
`text` (the full window, used only to cut candidate substrings). -/
def scanGo (text : List Char) : List Char → Nat → ScanSt → ScanSt
  | [], _, st => st
  | c :: rest, i, st => scanGo text rest (i + 1) (scanStep text i c st)

/-- The complete forward scan of a window. -/
def scanText (text : List Char) : ScanSt := scanGo text text 0 scanInit

/-- The backward scan computing `lastFeatureEndPos`: walk from the end of the
window, count `\x7d` up and `\x7b` down ignoring strings entirely, and stop
just after the first position where the count reaches one.  `i` is one past
the index of the current character. -/
def backGo : List Char → Int → Nat → Nat
  | [], _, _ => 0
  | c :: rest, curly, i =>
      if c = rbrace then
        if curly + 1 = 1 then i else backGo rest (curly + 1) (i - 1)
      else if c = lbrace then backGo rest (curly - 1) (i - 1)
      else backGo rest curly (i - 1)

/-- The backward scan over a whole window. -/
def backScan (text : List Char) : Nat := backGo text.reverse 0 text.length

/-- extractCompleteFeatures: the forward scan collects parsed features; the
returned `lastComplete` comes from the independent backward scan (only run
when at least one feature was extracted). -/
def extractCompleteFeatures (text : List Char) : List JSON × Nat :=
  let st := scanText text
  let lastPos := if 0 < st.features.length then backScan text else 0
  (st.features, lastPos)

/-! ## Spec-modelled scan (reference definitions for C3, C4 and C7)

`candGo` / `specCandidates` follow the specification's words for the Boundary
Scanner: the candidates are the substrings delimited by a depth-0 `\x7b` and
its matching `\x7d`, and `lastFwd` is the offset immediately after the last
top-level object successfully closed by the same forward pass. -/

/-- State of the spec-modelled forward scan. -/
structure CandSt where
  inString : Bool
  escape : Bool
  depth : Int
  start : Option Nat
  /-- candidate substrings, in scan order -/
  cands : List (List Char)
  /-- offset immediately after the last closed top-level object -/
  lastFwd : Nat
deriving Repr

/-- Initial spec-modelled scan state. -/
def candInit : CandSt := ⟨false, false, 0, none, [], 0⟩

/-- Modelled from the spec: one character of the forward pass, recording every
depth-0-delimited candidate substring and the offset just past the last
closed top-level object, with the same quote/escape and depth discipline as
the source's forward scan. -/
def candStep (text : List Char) (i : Nat) (c : Char) (st : CandSt) : CandSt :=
  let (inString', escape') := lexStep st.inString st.escape c
  if inString' then { st with inString := inString', escape := escape' }
  else if c = lbrace then
    let start' := if st.depth = 0 then some i else st.start
    { st with inString := inString', escape := escape',
              depth := st.depth + 1, start := start' }
  else if c = rbrace then
    let depth' := st.depth - 1
    match st.start with
    | some s0 =>
        if depth' = 0 then
          let cand := (text.drop s0).take (i + 1 - s0)
          { st with inString := inString', escape := escape',
                    depth := depth', start := none,
                    cands := st.cands ++ [cand], lastFwd := i + 1 }
        else
          { st with inString := inString', escape := escape', depth := depth' }
    | none =>
        { st with inString := inString', escape := escape', depth := depth' }
  else { st with inString := inString', escape := escape' }

/-- Run the spec-modelled scan over `rest` (head of `rest` is `text[i]`). -/
def candGo (text : List Char) : List Char → Nat → CandSt → CandSt
  | [], _, st => st
  | c :: rest, i, st => candGo text rest (i + 1) (candStep text i c st)

/-- Modelled from the spec: the candidate substrings of a window. -/
def specCandidates (text : List Char) : List (List Char) :=
  (candGo text text 0 candInit).cands

/-- Modelled from the spec: the forward-pass `lastComplete` — the offset
immediately after the last successfully closed top-level object, from the
same pass that tracks strings and depth. -/
def forwardLastComplete (text : List Char) : Nat :=
  (candGo text text 0 candInit).lastFwd

/-! ## Output structure (Result Assembler) -/

/-- The FeatureCollection-shaped result object.  `type` is always the literal
`'FeatureCollection'` in the source and is left implicit; optional fields are
`none` when the source never assigns them on the taken path (the source's
`_simplified`, `_totalFeatures`, `_error`, `_note` appear here without the
underscore prefix). -/
structure FCResult where
  features : List JSON := []
  simplified : Option Bool := none
  totalFeatures : Option Nat := none
  error : Option String := none
  note : Option String := none
  sample : Option Bool := none
  emergency : Option Bool := none
  crs : Option JSON := none
  name : Option JSON := none
deriving Repr

/-- The fixed CRS object used by the large-file code paths. -/
def crsCA : JSON :=
  .obj [("type", .str "name"),
        ("properties", .obj [("name", .str "urn:ogc:def:crs:EPSG::4269")])]

/-! ## String search helpers -/

/-- Step-bounded scan for `idxOfFrom` (`steps` counts candidate offsets so
the recursion is structural; the wrapper passes exactly enough). -/
def idxOfFromGo (pat text : List Char) : Nat → Nat → Option Nat
  | _, 0 => none
  | i, steps + 1 =>
    if pat.isPrefixOf (text.drop i) then some i
    else idxOfFromGo pat text (i + 1) steps

/-- Leftmost occurrence of `pat` (nonempty) in `text` at an index `≥ start`. -/
def idxOfFrom (pat text : List Char) (start : Nat) : Option Nat :=
  idxOfFromGo pat text start (text.length + 1 - start)

/-- JavaScript `text.indexOf(pat, start)` (−1 when absent). -/
def jsIndexOf (pat text : List Char) (start : Nat) : Int :=
  match idxOfFrom pat text start with
  | some n => (n : Int)
  | none => -1

/-- The literal searched for by the feature-start jump heuristics. -/
def featureStartPat : List Char := ("\x7b\"type\":\"Feature\"").toList

/-! ## extractFeaturesFromFile: the chunked extraction loop -/

/-- The chunk size of extractFeaturesFromFile (5 MB). -/
def CHUNK_SIZE : Nat := 5 * 1024 * 1024

/-- Scan State of the chunk-processing loop.  `position` is rational because
the aggressive advance adds `bytesRead * 0.75`, which is generally not an
integer; we model positioned reads at a fractional offset as reads at its
floor (the generous model — real Node would throw there, which would only
terminate the loop earlier). -/
structure ExtState where
  position : ℚ
  remainder : List Char
  features : List JSON
deriving Repr

/-- Result of one pass through the loop body: continue or break out. -/
inductive BodyRes where
  | next (st : ExtState)
  | exit (st : ExtState)
deriving Repr

/-- Initial scan position: skip to the features array using the first 10 KB. -/
def extractInitPosition (content : List Char) : Nat :=
  let headerText := content.take 10000
  let featuresArrayPos := jsIndexOf ("\"features\"").toList headerText 0
  if 0 < featuresArrayPos then
    let featuresStart := jsIndexOf ['['] headerText featuresArrayPos.toNat
    if 0 < featuresStart then featuresStart.toNat else 0
  else 0

/-- The final remainder cap of the loop body: when the remainder exceeds
five chunk sizes, keep only its most recent two chunk sizes. -/
def trimRemainder (remainder : List Char) : List Char :=
  if CHUNK_SIZE * 5 < remainder.length then
    remainder.drop (remainder.length - CHUNK_SIZE * 2)
  else remainder

/-- The Carry-over Manager's position/remainder update: found-features
advance, feature-start jump, aggressive advance, or cautious advance with
overlap (in source priority order). -/
def extractAdvance (st : ExtState) (bytesRead : Nat) (text : List Char)
    (lastComplete : Nat) : ℚ × List Char :=
  if 0 < lastComplete then
    (st.position + min (bytesRead : ℚ) (lastComplete : ℚ),
     text.drop lastComplete)
  else if CHUNK_SIZE * 3 < st.remainder.length then
    if 0 < jsIndexOf featureStartPat st.remainder CHUNK_SIZE then
      (st.position + (bytesRead : ℚ),
       st.remainder.drop (jsIndexOf featureStartPat st.remainder CHUNK_SIZE).toNat)
    else
      (st.position + (bytesRead : ℚ) * (3 / 4 : ℚ),
       text.drop (text.length - CHUNK_SIZE))
  else
    (st.position + max ((bytesRead : ℚ) / 2) 1024,
     text.drop (text.length - CHUNK_SIZE))

/-- One iteration of the outer chunk-processing loop of
extractFeaturesFromFile (the loop body after the `while` condition). -/
def extractBody (content : List Char) (maxF : Nat) (st : ExtState) : BodyRes :=
  let fileSize := content.length
  let posIdx := Int.toNat ⌊st.position⌋
  let bytesRead := min CHUNK_SIZE (fileSize - posIdx)
  if bytesRead = 0 then .exit st
  else
    let text := st.remainder ++ (content.drop posIdx).take CHUNK_SIZE
    let features := st.features ++ (extractCompleteFeatures text).1
    let pr := extractAdvance st bytesRead text (extractCompleteFeatures text).2
    if (fileSize : ℚ) ≤ pr.1 then .exit ⟨pr.1, pr.2, features⟩
    else if maxF ≤ features.length then .exit ⟨pr.1, pr.2, features⟩
    else .next ⟨pr.1, trimRemainder pr.2, features⟩

/-- The outer loop, fuel-indexed; `none` means the fuel ran out before a
normal exit (shown impossible for the fuel used below). -/
def extractLoop (content : List Char) (maxF : Nat) :
    Nat → ExtState → Option ExtState
  | fuel, st =>
    if st.position < (content.length : ℚ) ∧ st.features.length < maxF then
      match fuel with
      | 0 => none
      | f + 1 =>
        match extractBody content maxF st with
        | .exit st' => some st'
        | .next st' => extractLoop content maxF f st'
    else some st

/-- The initial Scan State of extractFeaturesFromFile. -/
def extractInit (content : List Char) : ExtState :=
  ⟨(extractInitPosition content : ℚ), [], []⟩

/-- extractFeaturesFromFile: run the loop and cap the result. -/
def extractFeaturesFromFile (content : List Char) (maxF : Nat) : List JSON :=
  match extractLoop content maxF (2 * content.length + 2)
      (extractInit content) with
  | some st => st.features.take maxF
  | none => []

/-- The state at the start of the `n`-th loop iteration (`none` once the loop
has exited). -/
def nthState (content : List Char) (maxF : Nat) : Nat → Option ExtState
  | 0 => some (extractInit content)
  | n + 1 =>
    (nthState content maxF n).bind (fun st =>
      if st.position < (content.length : ℚ) ∧ st.features.length < maxF then
        match extractBody content maxF st with
        | .next st' => some st'
        | .exit _ => none
      else none)

/-! ## processGiantFileSimplified: the Fallback Sampler -/

/-- The sample window size (2 MB). -/
def SAMPLE_SIZE : Nat := 2 * 1024 * 1024

/-- Scan forward from `featureStart` with the same quote/escape tracking,
counting braces, and return the offset just past the brace that closes the
candidate (the source's `featureEnd`), if found. -/
def findFeatureEndGo : List Char → Nat → Int → Bool → Bool → Option Nat
  | [], _, _, _, _ => none
  | c :: rest, i, bracketCount, inString, escape =>
    let (inString', escape') := lexStep inString escape c
    if inString' then findFeatureEndGo rest (i + 1) bracketCount inString' escape'
    else if c = lbrace then
      findFeatureEndGo rest (i + 1) (bracketCount + 1) inString' escape'
    else if c = rbrace then
      if bracketCount - 1 = 0 then some (i + 1)
      else findFeatureEndGo rest (i + 1) (bracketCount - 1) inString' escape'
    else findFeatureEndGo rest (i + 1) bracketCount inString' escape'

/-- `featureEnd` search of the Fallback Sampler. -/
def findFeatureEnd (text : List Char) (featureStart : Nat) : Option Nat :=
  findFeatureEndGo (text.drop featureStart) featureStart 0 false false

/-- The inner `while (pos < text.length)` loop of one sample window (fuel-
indexed; the fuel used is always sufficient because `pos` strictly grows). -/
def sampleScanGo (text : List Char) (maxF : Nat) :
    Nat → Nat → List JSON → List JSON
  | 0, _, features => features
  | fuel + 1, pos, features =>
    if text.length ≤ pos then features
    else
      match idxOfFrom featureStartPat text pos with
      | none => features
      | some featureStart =>
        match findFeatureEnd text featureStart with
        | some featureEnd =>
          let cand := (text.drop featureStart).take (featureEnd - featureStart)
          match jsonParse cand with
          | some feature =>
            if isStr (getField feature "type") "Feature" &&
               truthyO (getField feature "geometry") then
              let features' := features ++ [feature]
              if maxF ≤ features'.length then features'
              else sampleScanGo text maxF fuel featureEnd features'
            else sampleScanGo text maxF fuel featureEnd features
          | none => sampleScanGo text maxF fuel featureEnd features
        | none => sampleScanGo text maxF fuel (featureStart + 20) features

/-- One sample point of the Fallback Sampler's outer loop (its `break` on the
cap re-checked per iteration, and `continue` on an empty read). -/
def giantSampleStep (content : List Char) (maxF : Nat) (acc : List JSON)
    (startPos : Nat) : List JSON :=
  if maxF ≤ acc.length then acc
  else
    let bytesRead := min SAMPLE_SIZE (content.length - startPos)
    if bytesRead = 0 then acc
    else
      let text := (content.drop startPos).take SAMPLE_SIZE
      sampleScanGo text maxF (text.length + 1) 0 acc

/-- processGiantFileSimplified: sample fixed windows at the 0 %, 25 %, 50 %
and 75 % marks and collect up to `maxF` features.  Total by construction (it
never throws for an existing file). -/
def processGiantFileSimplified (content : List Char) (maxF : Nat) : FCResult :=
  let fileSize := content.length
  let samplePoints : List Nat :=
    [0, fileSize / 4, fileSize / 2, fileSize * 3 / 4]
  let features := samplePoints.foldl (giantSampleStep content maxF) []
  { features := features,
    simplified := some true,
    totalFeatures := some features.length,
    note := some "This is a sample of features from across the file",
    crs := some crsCA,
    name := some (.str "California") }

/-! ## universal-geojson-handler.js -/

/-- Is the value an object or array (JS `typeof === 'object'` excluding
`null`)? -/
def isObjArr : JSON → Bool
  | .obj _ => true
  | .arr _ => true
  | _ => false

/-- Same test through an optional receiver. -/
def isObjArrO : Option JSON → Bool
  | some j => isObjArr j
  | none => false

/-- `Array.isArray` through an optional receiver. -/
def isArrO : Option JSON → Bool
  | some (.arr _) => true
  | _ => false

/-- The items of an optional array value. -/
def arrItems : Option JSON → List JSON
  | some (.arr l) => l
  | _ => []

/-- JavaScript `a || b` where `a` is an optional field access. -/
def jsOr (a : Option JSON) (b : JSON) : JSON :=
  if truthyO a then a.getD .null else b

/-- The default empty polygon of convertEsriGeometry. -/
def defaultPolygon : JSON :=
  .obj [("type", .str "Polygon"), ("coordinates", .arr [.arr []])]

/-- convertEsriGeometry: convert an ESRI geometry (first argument, `none`
models `undefined`) to GeoJSON, in source branch order. -/
def convertEsriGeometry (esriGeometry : Option JSON)
    (geometryType : Option JSON) : JSON :=
  if truthyO esriGeometry && truthyO (getFieldO esriGeometry "type") then
    esriGeometry.getD .null
  else if !truthyO esriGeometry then defaultPolygon
  else if isStr geometryType "esriGeometryPolygon" ||
      truthyO (getFieldO esriGeometry "rings") then
    .obj [("type", .str "Polygon"),
          ("coordinates", jsOr (getFieldO esriGeometry "rings") (.arr [.arr []]))]
  else if isStr geometryType "esriGeometryPolyline" ||
      truthyO (getFieldO esriGeometry "paths") then
    .obj [("type", .str "MultiLineString"),
          ("coordinates", jsOr (getFieldO esriGeometry "paths") (.arr [.arr []]))]
  else if isStr geometryType "esriGeometryPoint" ||
      ((getFieldO esriGeometry "x").isSome &&
       (getFieldO esriGeometry "y").isSome) then
    .obj [("type", .str "Point"),
          ("coordinates",
           .arr [jsOr (getFieldO esriGeometry "x") (.num 0),
                 jsOr (getFieldO esriGeometry "y") (.num 0)])]
  else if isStr geometryType "esriGeometryMultiPoint" ||
      truthyO (getFieldO esriGeometry "points") then
    .obj [("type", .str "MultiPoint"),
          ("coordinates", jsOr (getFieldO esriGeometry "points") (.arr []))]
  else defaultPolygon

/-- Does the object look like a feature (truthy object-typed `geometry` plus
truthy `properties` or `attributes`)? -/
def looksLikeFeature (j : JSON) : Bool :=
  truthyO (getField j "geometry") && isObjArrO (getField j "geometry") &&
    (truthyO (getField j "properties") || truthyO (getField j "attributes"))

/-- Does the object look like a bare GeoJSON geometry? -/
def looksLikeGeometry (j : JSON) : Bool :=
  truthyO (getField j "type") && truthyO (getField j "coordinates") &&
    (isStr (getField j "type") "Point" || isStr (getField j "type") "LineString" ||
     isStr (getField j "type") "Polygon" || isStr (getField j "type") "MultiPoint" ||
     isStr (getField j "type") "MultiLineString" ||
     isStr (getField j "type") "MultiPolygon")

/-- The feature built for a feature-shaped object. -/
def mkPotentialFeature (j : JSON) : JSON :=
  .obj [("type", .str "Feature"),
        ("properties",
         jsOr (getField j "properties") (jsOr (getField j "attributes") (.obj []))),
        ("geometry", (getField j "geometry").getD .null)]

mutual

/-- Size of a JSON tree (an executable bound for the search's fuel). -/
def jsize : JSON → Nat
  | .null => 1
  | .bool _ => 1
  | .num _ => 1
  | .str _ => 1
  | .arr items => 1 + jsizeL items
  | .obj fs => 1 + jsizeF fs

/-- Size of a list of JSON trees. -/
def jsizeL : List JSON → Nat
  | [] => 1
  | j :: rest => 1 + jsize j + jsizeL rest

/-- Size of a JSON field list. -/
def jsizeF : List (String × JSON) → Nat
  | [] => 1
  | (_, v) :: rest => 1 + jsize v + jsizeF rest

end

mutual

/-- findPotentialFeatures: unbounded recursive search for feature-shaped
objects (the source has no depth cap).  `features` threads the mutated
`result.features`.  The extra fuel argument only makes the JavaScript
recursion structural; every call strictly shrinks the visited subterm, so the
wrapper's fuel `sizeOf j + 1` never runs out. -/
def findPotentialFeatures : Nat → JSON → List JSON → Nat → List JSON
  | 0, _, features, _ => features
  | fuel + 1, j, features, maxF =>
    if maxF ≤ features.length then features
    else if !isObjArr j then features
    else if looksLikeFeature j then features ++ [mkPotentialFeature j]
    else if looksLikeGeometry j then
      features ++ [.obj [("type", .str "Feature"), ("properties", .obj []),
                         ("geometry", j)]]
    else
      match j with
      | .obj fs => fpfFields fuel fs features maxF
      | .arr its => fpfElems fuel its features maxF
      | _ => features

/-- The `for (const key in obj)` loop over an object's values. -/
def fpfFields : Nat → List (String × JSON) → List JSON → Nat → List JSON
  | 0, _, features, _ => features
  | _ + 1, [], features, _ => features
  | fuel + 1, (_, v) :: rest, features, maxF =>
    let features1 :=
      if isObjArr v then
        let f2 := findPotentialFeatures fuel v features maxF
        match v with
        | .arr items => fpfItems fuel items f2 maxF
        | _ => f2
      else features
    fpfFields fuel rest features1 maxF

/-- The `for (const key in obj)` loop when the receiver is an array (keys are
indices, values are the elements, each also re-walked as an array element). -/
def fpfElems : Nat → List JSON → List JSON → Nat → List JSON
  | 0, _, features, _ => features
  | _ + 1, [], features, _ => features
  | fuel + 1, v :: rest, features, maxF =>
    let features1 :=
      if isObjArr v then
        let f2 := findPotentialFeatures fuel v features maxF
        match v with
        | .arr items => fpfItems fuel items f2 maxF
        | _ => f2
      else features
    fpfElems fuel rest features1 maxF

/-- The inner `for (const item of obj[key])` loop over an array value. -/
def fpfItems : Nat → List JSON → List JSON → Nat → List JSON
  | 0, _, features, _ => features
  | _ + 1, [], features, _ => features
  | fuel + 1, it :: rest, features, maxF =>
    let features1 :=
      if isObjArr it then findPotentialFeatures fuel it features maxF
      else features
    fpfItems fuel rest features1 maxF

end

/-- findPotentialFeatures as called by the handler (sufficient fuel). -/
def findPotentialFeaturesTop (j : JSON) (features : List JSON) (maxF : Nat) :
    List JSON :=
  findPotentialFeatures (jsize j + 1) j features maxF

mutual

/-- Maximum call-stack depth reached by findPotentialFeatures on this input
(the call itself counts one frame), threading `features` exactly as the
source does. -/
def fpfDepth : Nat → JSON → List JSON → Nat → Nat
  | 0, _, _, _ => 0
  | fuel + 1, j, features, maxF =>
    if maxF ≤ features.length then 1
    else if !isObjArr j then 1
    else if looksLikeFeature j then 1
    else if looksLikeGeometry j then 1
    else
      match j with
      | .obj fs => 1 + fpfFieldsDepth fuel fs features maxF
      | .arr its => 1 + fpfElemsDepth fuel its features maxF
      | _ => 1

/-- Depth of the object-field loop. -/
def fpfFieldsDepth : Nat → List (String × JSON) → List JSON → Nat → Nat
  | 0, _, _, _ => 0
  | _ + 1, [], _, _ => 0
  | fuel + 1, (_, v) :: rest, features, maxF =>
    let d1 :=
      if isObjArr v then
        let dv := fpfDepth fuel v features maxF
        let f2 := findPotentialFeatures fuel v features maxF
        match v with
        | .arr items => max dv (fpfItemsDepth fuel items f2 maxF)
        | _ => dv
      else 0
    let features1 :=
      if isObjArr v then
        let f2 := findPotentialFeatures fuel v features maxF
        match v with
        | .arr items => fpfItems fuel items f2 maxF
        | _ => f2
      else features
    max d1 (fpfFieldsDepth fuel rest features1 maxF)

/-- Depth of the element loop for array receivers. -/
def fpfElemsDepth : Nat → List JSON → List JSON → Nat → Nat
  | 0, _, _, _ => 0
  | _ + 1, [], _, _ => 0
  | fuel + 1, v :: rest, features, maxF =>
    let d1 :=
      if isObjArr v then
        let dv := fpfDepth fuel v features maxF
        let f2 := findPotentialFeatures fuel v features maxF
        match v with
        | .arr items => max dv (fpfItemsDepth fuel items f2 maxF)
        | _ => dv
      else 0
    let features1 :=
      if isObjArr v then
        let f2 := findPotentialFeatures fuel v features maxF
        match v with
        | .arr items => fpfItems fuel items f2 maxF
        | _ => f2
      else features
    max d1 (fpfElemsDepth fuel rest features1 maxF)

/-- Depth of the inner item loop. -/
def fpfItemsDepth : Nat → List JSON → List JSON → Nat → Nat
  | 0, _, _, _ => 0
  | _ + 1, [], _, _ => 0
  | fuel + 1, it :: rest, features, maxF =>
    let d1 := if isObjArr it then fpfDepth fuel it features maxF else 0
    let features1 :=
      if isObjArr it then findPotentialFeatures fuel it features maxF
      else features
    max d1 (fpfItemsDepth fuel rest features1 maxF)

end

/-- The recursion depth of the handler's findPotentialFeatures call. -/
def fpfDepthTop (j : JSON) (features : List JSON) (maxF : Nat) : Nat :=
  fpfDepth (jsize j + 1) j features maxF

/-- Normalization applied on the non-standard features-array path: force
`type: 'Feature'` and a `properties` object.  Property assignment on a
non-object is a silent no-op (non-strict mode), and assigning to an array is
not representable here (arrays with extra properties do not arise from
JSON.parse output shapes this path is given). -/
def normalizeNS (feature : JSON) : JSON :=
  match feature with
  | .obj fs =>
    let fs1 := if isStr (JSON.obj fs |> (getField · "type")) "Feature" then fs
               else insertField fs "type" (.str "Feature")
    let fs2 := if truthyO (fs1.lookup "properties") then fs1
               else insertField fs1 "properties" (.obj [])
    .obj fs2
  | other => other

/-- The ESRI feature conversion of the ESRI-format path. -/
def convertEsriFeature (geometryType : Option JSON) (esriFeature : JSON) :
    JSON :=
  .obj [("type", .str "Feature"),
        ("properties", jsOr (getField esriFeature "attributes") (.obj [])),
        ("geometry",
         convertEsriGeometry (getField esriFeature "geometry") geometryType)]

/-- One layer feature of the layers path. -/
def convertLayerFeature (layer : JSON) (feature : JSON) : JSON :=
  let base :=
    jsOr (getField feature "attributes")
      (jsOr (getField feature "properties") (.obj []))
  let baseFields := match base with | .obj fs => fs | _ => []
  .obj [("type", .str "Feature"),
        ("properties",
         .obj (insertField baseFields "_layerName"
                (jsOr (getField layer "name") (.str "unnamed")))),
        ("geometry",
         jsOr (getField feature "geometry")
           (convertEsriGeometry (getField feature "geometry")
             (getField layer "geometryType")))]

/-- The per-layer inner loop (`i < layer.features.length &&
result.features.length < maxFeatures`). -/
def layersInner (layer : JSON) (l : List JSON) (features : List JSON)
    (count : Nat) (maxF : Nat) : List JSON × Nat :=
  match l with
  | [] => (features, count)
  | f :: rest =>
    if maxF ≤ features.length then (features, count)
    else layersInner layer rest (features ++ [convertLayerFeature layer f])
           (count + 1) maxF

/-- The outer loop over layers, with its early break at the cap. -/
def layersOuter (ls : List JSON) (features : List JSON) (count : Nat)
    (maxF : Nat) : List JSON × Nat :=
  match ls with
  | [] => (features, count)
  | layer :: rest =>
    let (features1, count1) :=
      if truthyO (getField layer "features") &&
         isArrO (getField layer "features") then
        layersInner layer (arrItems (getField layer "features")) features
          count maxF
      else (features, count)
    if maxF ≤ features1.length then (features1, count1)
    else layersOuter rest features1 count1 maxF

/-- handleGeoJSONFile's dispatch on the parsed document, in source branch
order (the initial result carries `_simplified: false`). -/
def handleParsed (data : JSON) (maxF : Nat) : FCResult :=
  if isStr (getField data "type") "FeatureCollection" &&
     isArrO (getField data "features") then
    let feats := arrItems (getField data "features")
    { features := feats.take maxF,
      totalFeatures := some feats.length,
      simplified := some (decide (maxF < feats.length)) }
  else if truthyO (getField data "features") &&
      isArrO (getField data "features") then
    let feats := arrItems (getField data "features")
    { features := (feats.take maxF).map normalizeNS,
      totalFeatures := some feats.length,
      simplified := some (decide (maxF < feats.length)) }
  else if (truthyO (getField data "geometryType") &&
      truthyO (getField data "spatialReference")) &&
      (truthyO (getField data "features") &&
       isArrO (getField data "features")) then
    let feats := arrItems (getField data "features")
    { features := (feats.take maxF).map
        (convertEsriFeature (getField data "geometryType")),
      totalFeatures := some feats.length,
      simplified := some (decide (maxF < feats.length)) }
  else if isStr (getField data "type") "Feature" &&
      truthyO (getField data "geometry") then
    { features := [data],
      totalFeatures := some 1,
      simplified := some false }
  else if truthyO (getField data "type") &&
      (isStr (getField data "type") "Polygon" ||
       isStr (getField data "type") "MultiPolygon" ||
       isStr (getField data "type") "Point" ||
       isStr (getField data "type") "LineString") then
    { features := [.obj [("type", .str "Feature"), ("properties", .obj []),
                         ("geometry", data)]],
      totalFeatures := some 1,
      simplified := some false }
  else if truthyO (getField data "layers") &&
      isArrO (getField data "layers") then
    let (features, count) :=
      layersOuter (arrItems (getField data "layers")) [] 0 maxF
    { features := features,
      totalFeatures := some count,
      simplified := some (decide (maxF < count)) }
  else
    let pf := findPotentialFeaturesTop data [] maxF
    if 0 < pf.length then
      { features := pf, totalFeatures := some pf.length,
        simplified := some false }
    else
      { simplified := some false }

/-- handleGeoJSONFile: read, JSON.parse (an I/O or parse error yields the
`_error` collection), then dispatch. -/
def handleGeoJSONFile (content : List Char) (maxF : Nat) : FCResult :=
  match jsonParse content with
  | none => { error := some "JSON parse error" }
  | some data => handleParsed data maxF

/-! ## The large-file handler (handleLargeGeoJSONFile and its strategies) -/

/-- Whitespace for JS `String.trim` and the regex class `\s` (ASCII part). -/
def isTrimWs (c : Char) : Bool :=
  isWs c || c = Char.ofNat 11 || c = Char.ofNat 12

/-- JavaScript `s.trim()`. -/
def trimJS (s : List Char) : List Char :=
  ((s.dropWhile isTrimWs).reverse.dropWhile isTrimWs).reverse

/-- fixBrokenJson: append a closing brace and/or bracket when counts are
unbalanced. -/
def fixBrokenJson (s : List Char) : List Char :=
  let f1 := if s.count rbrace < s.count lbrace then trimJS s ++ [rbrace] else s
  let f2 := if f1.count ']' < f1.count '[' then trimJS f1 ++ [']'] else f1
  f2

/-- Step-bounded scan for `skipWsIdx`. -/
def skipWsIdxGo (s : List Char) : Nat → Nat → Nat
  | i, 0 => i
  | i, steps + 1 =>
    match s.drop i with
    | c :: _ => if isTrimWs c then skipWsIdxGo s (i + 1) steps else i
    | [] => i

/-- Index of the first non-`\s` character at or after `i`. -/
def skipWsIdx (s : List Char) (i : Nat) : Nat :=
  skipWsIdxGo s i (s.length - i)

/-- Match a literal at index `i`, returning the index just past it. -/
def litAt (lit : List Char) (s : List Char) (i : Nat) : Option Nat :=
  if lit.isPrefixOf (s.drop i) then some (i + lit.length) else none

/-- Match `"features" \s* : \s* [` at index `k`. -/
def matchFCTail (s : List Char) (k : Nat) : Option Nat := do
  let k1 ← litAt ("\"features\"").toList s k
  let k2 ← litAt [':'] s (skipWsIdx s k1)
  litAt ['['] s (skipWsIdx s k2)

/-- Step-bounded scan for `findTail`. -/
def findTailGo (s : List Char) : Nat → Nat → Option Nat
  | _, 0 => none
  | k, steps + 1 =>
    match matchFCTail s k with
    | some e => some e
    | none => findTailGo s (k + 1) steps

/-- Lazy `.*?` search for the tail, shortest extension first. -/
def findTail (s : List Char) (k : Nat) : Option Nat :=
  findTailGo s k (s.length + 1 - k)

/-- Match the header pattern
`\x7b \s* "type" \s* : \s* "FeatureCollection" .*? "features" \s* : \s* [`
starting exactly at `i`, returning the index just past the match. -/
def matchFCAt (s : List Char) (i : Nat) : Option Nat := do
  let i1 ← litAt [lbrace] s i
  let i2 ← litAt ("\"type\"").toList s (skipWsIdx s i1)
  let i3 ← litAt [':'] s (skipWsIdx s i2)
  let i4 ← litAt ("\"FeatureCollection\"").toList s (skipWsIdx s i3)
  findTail s i4

/-- Step-bounded scan for the leftmost match of the header regex. -/
def regexFCGo (s : List Char) : Nat → Nat → Option (Nat × Nat)
  | _, 0 => none
  | i, steps + 1 =>
    match matchFCAt s i with
    | some e => some (i, e)
    | none => regexFCGo s (i + 1) steps

/-- `headerText.match(<FeatureCollection header regex>)` (start and end of
the leftmost match). -/
def regexFC (s : List Char) : Option (Nat × Nat) := regexFCGo s 0 (s.length + 1)

/-- The chunk size of processWithChunks (2 MB). -/
def CHUNK_SIZE_chunks : Nat := 2 * 1024 * 1024

/-- State of the first-chunk scan of processWithChunks (depth starts at 1,
inside the features array; `done` models its `break`). -/
structure PwcSt where
  inFeature : Bool
  featureStart : Nat
  depth : Int
  inString : Bool
  escape : Bool
  features : List JSON
  done : Bool
deriving Repr

/-- One character of the first-chunk scan of processWithChunks.  (`done`
models its `break`, taken just after a push reaches the cap; in non-push
outcomes `done` keeps its current — false — value.) -/
def pwcStep (text : List Char) (maxF : Nat) (i : Nat) (c : Char)
    (st : PwcSt) : PwcSt :=
  if st.done then st
  else
    let l := lexStep st.inString st.escape c
    if l.1 then { st with inString := l.1, escape := l.2 }
    else if c = lbrace then
      if !st.inFeature then
        { st with inString := l.1, escape := l.2, inFeature := true,
                  featureStart := i, depth := st.depth + 1 }
      else
        { st with inString := l.1, escape := l.2, inFeature := true,
                  depth := st.depth + 1 }
    else if c = rbrace then
      if st.depth - 1 = 1 && st.inFeature then
        match jsonParse
            ((text.drop st.featureStart).take (i + 1 - st.featureStart)) with
        | some f =>
          if isStr (getField f "type") "Feature" &&
             truthyO (getField f "properties") &&
             truthyO (getField f "geometry") then
            { st with inString := l.1, escape := l.2, depth := st.depth - 1,
                      inFeature := false, features := st.features ++ [f],
                      done := decide (maxF ≤ (st.features ++ [f]).length) }
          else
            { st with inString := l.1, escape := l.2, depth := st.depth - 1,
                      inFeature := false }
        | none =>
          { st with inString := l.1, escape := l.2, depth := st.depth - 1,
                    inFeature := false }
      else { st with inString := l.1, escape := l.2, depth := st.depth - 1 }
    else { st with inString := l.1, escape := l.2 }

/-- Run the first-chunk scan (head of `rest` is `text[i]`). -/
def pwcGo (text : List Char) (maxF : Nat) : List Char → Nat → PwcSt → PwcSt
  | [], _, st => st
  | c :: rest, i, st => pwcGo text maxF rest (i + 1) (pwcStep text maxF i c st)

/-- The complete first-chunk feature scan of processWithChunks. -/
def pwcScan (text : List Char) (maxF : Nat) : List JSON :=
  (pwcGo text maxF text 0 ⟨false, 0, 1, false, false, [], false⟩).features

/-- processWithChunks: try the first-chunk scan after locating the header,
else fall back to parsing the whole file; throws (`Except.error`) when both
fail. -/
def processWithChunks (content : List Char) (maxF : Nat) :
    Except String FCResult :=
  let headerText := content.take CHUNK_SIZE_chunks
  let firstTry : Option FCResult :=
    match regexFC headerText with
    | some pr =>
      -- header found: scan the first chunk after the features array start
      let contentStr := (headerText.drop pr.1).take (pr.2 - pr.1)
      let fkPos := jsIndexOf ("\"features\"").toList contentStr 0
      let fromIdx := if fkPos < 0 then 0 else fkPos.toNat
      let featuresArrayStart := jsIndexOf ['['] contentStr fromIdx + 1
      let features := pwcScan (headerText.drop featuresArrayStart.toNat) maxF
      if 0 < features.length then
        some { features := features, totalFeatures := some features.length,
               crs := some crsCA, name := some (.str "California") }
      else none
    | none => none
  match firstTry with
  | some r => .ok r
  | none =>
    match jsonParse content with
    | some data =>
      if isStr (getField data "type") "FeatureCollection" &&
         isArrO (getField data "features") then
        let feats := arrItems (getField data "features")
        .ok { features := feats.take maxF,
              totalFeatures := some feats.length,
              crs := some (jsOr (getField data "crs") crsCA),
              name := some (jsOr (getField data "name") (.str "California")) }
      else .error "Failed to extract features"
    | none => .error "JSON parse error"

/-- processLargeCaliforniaFile: check the header of the first 5 MB, then run
the chunked extraction; throws when the header is missing. -/
def processLargeCaliforniaFile (content : List Char) (maxF : Nat) :
    Except String FCResult :=
  let headerText := content.take (5 * 1024 * 1024)
  match regexFC headerText with
  | none => .error "Invalid file format"
  | some _ =>
    let features := extractFeaturesFromFile content maxF
    .ok { features := features, totalFeatures := some features.length,
          crs := some crsCA, name := some (.str "California") }

/-- The direct (in-memory) path of handleLargeGeoJSONFile on the parsed
document (initial result carries `_simplified: false`). -/
def handleLargeDirect (data : JSON) (maxF : Nat) : FCResult :=
  if isStr (getField data "type") "FeatureCollection" &&
     isArrO (getField data "features") then
    let feats := arrItems (getField data "features")
    { features := feats.take maxF,
      totalFeatures := some feats.length,
      simplified := some (decide (maxF < feats.length)),
      crs := if truthyO (getField data "crs")
             then some ((getField data "crs").getD .null) else none,
      name := if truthyO (getField data "name")
              then some ((getField data "name").getD .null) else none }
  else { simplified := some false }

/-- The primary tier selection of handleLargeGeoJSONFile: segmented scan over
500 MB, chunked scan over 200 MB, else the direct in-memory parse (with the
fixBrokenJson retry of its inner catch). -/
def handleLargeAttempt (content : List Char) (maxF : Nat) :
    Except String FCResult :=
  if 500 * 1024 * 1024 < content.length then
    processLargeCaliforniaFile content maxF
  else if 200 * 1024 * 1024 < content.length then
    processWithChunks content maxF
  else
    match jsonParse content with
    | some data => .ok (handleLargeDirect data maxF)
    | none =>
      match jsonParse (fixBrokenJson content) with
      | some data => .ok (handleLargeDirect data maxF)
      | none => .error "JSON parse error"

/-- handleLargeGeoJSONFile: the primary tier, with the fallback chain of its
catch blocks (processWithChunks, then processGiantFileSimplified; the final
`_error` result of the source is unreachable here because the sampler is
total for an existing file). -/
def handleLargeGeoJSONFile (content : List Char) (maxF : Nat) : FCResult :=
  match handleLargeAttempt content maxF with
  | .ok r => r
  | .error _ =>
    match processWithChunks content maxF with
    | .ok r => r
    | .error _ => processGiantFileSimplified content maxF

/-! ## Supporting lemmas -/

/-- The position reached by one pass of the loop body (either outcome). -/
def bodyPosition (content : List Char) (maxF : Nat) (st : ExtState) : ℚ :=
  match extractBody content maxF st with
  | .next s => s.position
  | .exit s => s.position

theorem trimRemainder_length_le (r : List Char) :
    (trimRemainder r).length ≤ CHUNK_SIZE * 5 := by
  unfold trimRemainder
  split_ifs with h
  · simp [List.length_drop]
    omega
  · omega

theorem trimRemainder_trims (r : List Char) (h : CHUNK_SIZE * 5 < r.length) :
    trimRemainder r = r.drop (r.length - CHUNK_SIZE * 2) ∧
    (trimRemainder r).length = CHUNK_SIZE * 2 ∧
    trimRemainder r <:+ r := by
  refine ⟨by unfold trimRemainder; rw [if_pos h], ?_, ?_⟩
  · unfold trimRemainder; rw [if_pos h]; simp [List.length_drop]; omega
  · unfold trimRemainder; rw [if_pos h]; exact List.drop_suffix _ _

theorem extractBody_next_remainder_le (content : List Char) (maxF : Nat)
    (st st' : ExtState) (h : extractBody content maxF st = .next st') :
    st'.remainder.length ≤ CHUNK_SIZE * 5 := by
  unfold extractBody at h
  dsimp only at h
  split_ifs at h with h1 h2 h3
  all_goals
    first
      | exact BodyRes.noConfusion h
      | (cases h; exact trimRemainder_length_le _)

theorem nthState_remainder_le (content : List Char) (maxF : Nat) :
    ∀ n st, nthState content maxF n = some st →
      st.remainder.length ≤ CHUNK_SIZE * 5 := by
  intro n
  induction n with
  | zero =>
    intro st h
    simp only [nthState, extractInit, Option.some.injEq] at h
    rw [← h]
    simp
  | succ n ih =>
    intro st h
    simp only [nthState, Option.bind_eq_some] at h
    obtain ⟨stp, hstp, hstep⟩ := h
    split_ifs at hstep with hc
    · cases hb : extractBody content maxF stp with
      | next st2 =>
        rw [hb] at hstep
        simp only [Option.some.injEq] at hstep
        rw [← hstep]
        exact extractBody_next_remainder_le content maxF stp st2 hb
      | exit st2 => rw [hb] at hstep; exact Option.noConfusion hstep

theorem extractAdvance_fst_ge (st : ExtState) (bytesRead : Nat)
    (text : List Char) (lastComplete : Nat) (hb : 1 ≤ bytesRead) :
    st.position + 3 / 4 ≤ (extractAdvance st bytesRead text lastComplete).1 := by
  have hbq : (1 : ℚ) ≤ (bytesRead : ℚ) := by exact_mod_cast hb
  unfold extractAdvance
  split_ifs with h1 h2 h3
  · have hlc : (1 : ℚ) ≤ (lastComplete : ℚ) := by exact_mod_cast h1
    have hmin : (3 / 4 : ℚ) ≤ min (bytesRead : ℚ) (lastComplete : ℚ) := by
      rw [le_min_iff]
      constructor <;> linarith
    dsimp only
    linarith
  · dsimp only
    linarith
  · dsimp only
    have h34 : (1 : ℚ) * (3 / 4) ≤ (bytesRead : ℚ) * (3 / 4) :=
      mul_le_mul_of_nonneg_right hbq (by norm_num)
    linarith
  · dsimp only
    have hmax : (1024 : ℚ) ≤ max ((bytesRead : ℚ) / 2) 1024 := le_max_right _ _
    linarith

theorem extractBody_bytesRead_pos (content : List Char) (st : ExtState)
    (h0 : 0 ≤ st.position) (hlt : st.position < (content.length : ℚ)) :
    1 ≤ min CHUNK_SIZE (content.length - Int.toNat ⌊st.position⌋) := by
  have hfl : (0 : ℤ) ≤ ⌊st.position⌋ := by
    exact_mod_cast Int.floor_nonneg.mpr h0
  have hle : (⌊st.position⌋ : ℚ) ≤ st.position := Int.floor_le _
  have hq : (⌊st.position⌋ : ℚ) < (content.length : ℚ) := lt_of_le_of_lt hle hlt
  have hlt2 : ⌊st.position⌋ < (content.length : ℤ) := by exact_mod_cast hq
  have hn : Int.toNat ⌊st.position⌋ < content.length := by omega
  have hC : 1 ≤ CHUNK_SIZE := by norm_num [CHUNK_SIZE]
  omega

theorem extractBody_position_advance (content : List Char) (maxF : Nat)
    (st st' : ExtState) (h0 : 0 ≤ st.position)
    (hlt : st.position < (content.length : ℚ))
    (h : extractBody content maxF st = .next st' ∨
         extractBody content maxF st = .exit st') :
    st.position + 3 / 4 ≤ st'.position := by
  have hb := extractBody_bytesRead_pos content st h0 hlt
  have hadv := extractAdvance_fst_ge st
    (min CHUNK_SIZE (content.length - Int.toNat ⌊st.position⌋))
    (st.remainder ++ (content.drop (Int.toNat ⌊st.position⌋)).take CHUNK_SIZE)
    (extractCompleteFeatures
      (st.remainder ++ (content.drop (Int.toNat ⌊st.position⌋)).take CHUNK_SIZE)).2
    hb
  rcases h with h | h <;>
  · unfold extractBody at h
    dsimp only at h
    rw [if_neg (by omega)] at h
    split_ifs at h with h2 h3
    all_goals
      first
        | exact BodyRes.noConfusion h
        | (cases h; exact hadv)

theorem bodyPosition_advance (content : List Char) (maxF : Nat)
    (st : ExtState) (h0 : 0 ≤ st.position)
    (hlt : st.position < (content.length : ℚ)) :
    st.position + 3 / 4 ≤ bodyPosition content maxF st := by
  unfold bodyPosition
  cases hb : extractBody content maxF st with
  | next s =>
    exact extractBody_position_advance content maxF st s h0 hlt (Or.inl hb)
  | exit s =>
    exact extractBody_position_advance content maxF st s h0 hlt (Or.inr hb)

theorem extractLoop_terminates (content : List Char) (maxF : Nat) :
    ∀ (fuel : Nat) (st : ExtState), 0 ≤ st.position →
      ((content.length : ℚ) - st.position) * (4 / 3) + 1 < (fuel : ℚ) →
      extractLoop content maxF fuel st ≠ none := by
  intro fuel
  induction fuel with
  | zero =>
    intro st h0 hf
    unfold extractLoop
    split_ifs with hc
    · obtain ⟨hpos, _⟩ := hc
      exfalso
      have : (0 : ℚ) < (content.length : ℚ) - st.position := by linarith
      simp only [Nat.cast_zero] at hf
      linarith
    · simp
  | succ f ih =>
    intro st h0 hf
    unfold extractLoop
    split_ifs with hc
    · obtain ⟨hpos, _⟩ := hc
      cases hb : extractBody content maxF st with
      | exit st' => simp
      | next st' =>
        have hadv := extractBody_position_advance content maxF st st' h0 hpos
          (Or.inl hb)
        refine ih st' (by linarith) ?_
        push_cast at hf ⊢
        linarith
    · simp

theorem sampleScanGo_length_le (text : List Char) (maxF : Nat) :
    ∀ fuel pos (features : List JSON), features.length < maxF →
      (sampleScanGo text maxF fuel pos features).length ≤ maxF := by
  intro fuel
  induction fuel with
  | zero => intro pos features h; exact le_of_lt (by simpa [sampleScanGo] using h)
  | succ f ih =>
    intro pos features h
    unfold sampleScanGo
    split_ifs with h1
    · exact le_of_lt h
    · cases hidx : idxOfFrom featureStartPat text pos with
      | none => simp only [hidx]; exact le_of_lt h
      | some featureStart =>
        simp only [hidx]
        cases hfe : findFeatureEnd text featureStart with
        | none => simp only [hfe]; exact ih _ _ h
        | some featureEnd =>
          simp only [hfe]
          cases hp : jsonParse
              ((text.drop featureStart).take (featureEnd - featureStart)) with
          | none => simp only [hp]; exact ih _ _ h
          | some feature =>
            simp only [hp]
            split_ifs with h2 h3
            · simpa using h
            · refine ih _ _ ?_
              simp only [List.length_append, List.length_cons,
                List.length_nil] at h3 ⊢
              omega
            · exact ih _ _ h

theorem giantSampleStep_length_le (content : List Char) (maxF : Nat)
    (acc : List JSON) (p : Nat) (h : acc.length ≤ maxF) :
    (giantSampleStep content maxF acc p).length ≤ maxF := by
  unfold giantSampleStep
  dsimp only
  split_ifs with h1 h2
  · exact h
  · exact h
  · exact sampleScanGo_length_le _ _ _ _ _ (by omega)

theorem giantFold_length_le (content : List Char) (maxF : Nat) :
    ∀ (pts : List Nat) (acc : List JSON), acc.length ≤ maxF →
      (pts.foldl (giantSampleStep content maxF) acc).length ≤ maxF := by
  intro pts
  induction pts with
  | nil => intro acc h; exact h
  | cons p rest ih =>
    intro acc h
    exact ih _ (giantSampleStep_length_le content maxF acc p h)

theorem convertEsri_obj_type (g t : Option JSON) :
    ∃ kvs, convertEsriGeometry g t = JSON.obj kvs ∧
      (kvs.lookup "type").isSome := by
  unfold convertEsriGeometry
  split_ifs with h1 h2 h3 h4 h5 h6
  · rw [Bool.and_eq_true] at h1
    obtain ⟨hg, ht⟩ := h1
    match g with
    | some (JSON.obj kvs) =>
        refine ⟨kvs, rfl, ?_⟩
        simp only [getFieldO, Option.bind, getField] at ht
        cases hl : kvs.lookup "type" with
        | none => rw [hl] at ht; simp [truthyO] at ht
        | some v => simp
    | some (JSON.null) => simp [truthyO, truthy] at hg
    | some (JSON.bool b) => simp [getFieldO, getField, truthyO] at ht
    | some (JSON.num q) => simp [getFieldO, getField, truthyO] at ht
    | some (JSON.str s) => simp [getFieldO, getField, truthyO] at ht
    | some (JSON.arr l) => simp [getFieldO, getField, truthyO] at ht
    | none => simp [truthyO] at hg
  · exact ⟨_, rfl, by simp⟩
  · exact ⟨_, rfl, by simp⟩
  · exact ⟨_, rfl, by simp⟩
  · exact ⟨_, rfl, by simp⟩
  · exact ⟨_, rfl, by simp⟩
  · exact ⟨_, rfl, by simp⟩

/-- Does the content parse to a standard FeatureCollection, and with how many
features?  (The branch condition of the handlers' FeatureCollection path.) -/
def fcFeatureCount (content : List Char) : Option Nat :=
  match jsonParse content with
  | some data =>
      if isStr (getField data "type") "FeatureCollection" &&
         isArrO (getField data "features") then
        some (arrItems (getField data "features")).length
      else none
  | none => none

/-- An `n`-deep chain of singleton objects. -/
def nestObj : Nat → JSON
  | 0 => .obj []
  | n + 1 => .obj [("a", nestObj n)]

theorem nestObj_shape (n : Nat) : ∃ fs, nestObj n = JSON.obj fs := by
  cases n with
  | zero => exact ⟨[], rfl⟩
  | succ m => exact ⟨[("a", nestObj m)], rfl⟩

theorem jsize_nestObj (n : Nat) : jsize (nestObj n) = 3 * n + 2 := by
  induction n with
  | zero => rfl
  | succ n ih => simp [nestObj, jsize, jsizeF, ih]; omega

theorem fpfDepth_nestObj_fuel (n : Nat) :
    ∀ fuel, 2 * n + 2 ≤ fuel → fpfDepth fuel (nestObj n) [] 1000 = n + 1 := by
  induction n with
  | zero =>
    intro fuel hf
    obtain ⟨f, rfl⟩ : ∃ f, fuel = f + 2 := ⟨fuel - 2, by omega⟩
    simp [nestObj, fpfDepth, fpfFieldsDepth, looksLikeFeature,
      looksLikeGeometry, isObjArr, getField, truthyO]
  | succ n ih =>
    intro fuel hf
    obtain ⟨f, rfl⟩ : ∃ f, fuel = f + 2 := ⟨fuel - 2, by omega⟩
    obtain ⟨g, hg⟩ : ∃ g, f = g + 1 := ⟨f - 1, by omega⟩
    obtain ⟨fs, hfs⟩ := nestObj_shape n
    have h1 : fpfDepth (f + 2) (nestObj (n + 1)) [] 1000 =
        1 + fpfFieldsDepth (f + 1) [("a", nestObj n)] [] 1000 := by
      simp [nestObj, fpfDepth, looksLikeFeature, looksLikeGeometry,
        isObjArr, getField, truthyO, List.lookup]
    have h2 : fpfFieldsDepth (f + 1) [("a", JSON.obj fs)] [] 1000 =
        max (fpfDepth f (JSON.obj fs) [] 1000) 0 := by
      rw [hg]
      simp [fpfFieldsDepth, isObjArr]
    rw [h1, hfs, h2, ← hfs, ih f (by omega)]
    omega

theorem fpfDepthTop_nestObj (n : Nat) :
    fpfDepthTop (nestObj n) [] 1000 = n + 1 := by
  unfold fpfDepthTop
  rw [jsize_nestObj]
  exact fpfDepth_nestObj_fuel n (3 * n + 2 + 1) (by omega)

/-! ## Concrete inputs used by the claims -/

/-- A complete feature followed by trailing text whose string contains a
brace character. -/
def c3text : List Char :=
  ("\x7b\"type\":\"Feature\",\"properties\":\x7b\x7d,\"geometry\":\x7b\"type\":\"Point\",\"coordinates\":[0,0]\x7d\x7d\"\x7d\"").toList

/-- A two-feature FeatureCollection document. -/
def c5file : List Char :=
  ("\x7b\"type\":\"FeatureCollection\",\"features\":[\x7b\"type\":\"Feature\",\"properties\":\x7b\x7d,\"geometry\":null\x7d,\x7b\"type\":\"Feature\",\"properties\":\x7b\x7d,\"geometry\":null\x7d]\x7d").toList

/-- A short file with no feature in it. -/
def c8file : List Char := ("hello world, no feature here \x7b\x7d").toList

/-- A two-byte file of plain text. -/
def c2file : List Char := ("ab").toList

/-! ## Claims -/

/-- C2: on every iteration of the outer chunk-processing loop of
extractFeaturesFromFile, whatever the input file, the scan position strictly
increases (by at least 3/4 of a byte, across all four advance branches), and
consequently the loop terminates normally within a fuel budget proportional
to the file size (2·size + 2 iterations suffice), even on adversarial input
with no recognizable JSON object anywhere. -/
theorem C2_position_strictly_increases_and_terminates :
    (∀ (content : List Char) (maxF : Nat) (st : ExtState),
       0 ≤ st.position → st.position < (content.length : ℚ) →
       st.position + 3 / 4 ≤ bodyPosition content maxF st) ∧
    (∀ (content : List Char) (maxF : Nat),
       extractLoop content maxF (2 * content.length + 2)
         (extractInit content) ≠ none) := by
  constructor
  · exact bodyPosition_advance
  · intro content maxF
    refine extractLoop_terminates content maxF _ (extractInit content)
      (by simp [extractInit]) ?_
    push_cast
    simp only [extractInit]
    have h0 : (0 : ℚ) ≤ ((extractInitPosition content : Nat) : ℚ) := by
      positivity
    have hlen : (0 : ℚ) ≤ (content.length : ℚ) := by positivity
    nlinarith

/-- Witness for C2: one concrete iteration on the two-byte file `"ab"` (no
JSON object anywhere) advances the position from 0 by at least 3/4. -/
theorem C2_witness :
    (extractInit c2file).position + 3 / 4 ≤
      bodyPosition c2file 5 (extractInit c2file) :=
  C2_position_strictly_increases_and_terminates.1 c2file 5
    (extractInit c2file) (by decide) (by decide)

/-- C3: the claim that `lastComplete` is derived from the same forward pass
that produced the depth is refuted by the code: extractCompleteFeatures
computes it with an independent backward scan that ignores strings, so on a
window holding one complete feature followed by a string containing a brace
character it returns offset 84 (just past the brace inside the trailing
string literal) whereas the forward pass puts the end of the last complete
top-level object at offset 82. -/
theorem C3_backward_scan_disagrees_with_forward_pass :
    (extractCompleteFeatures c3text).1.length = 1 ∧
    (extractCompleteFeatures c3text).2 = 84 ∧
    forwardLastComplete c3text = 82 ∧
    (extractCompleteFeatures c3text).2 ≠ forwardLastComplete c3text :=
  ⟨rfl, rfl, rfl, by decide⟩

/-- C5: for a document that parses in memory to a standard FeatureCollection
with N features, both handleGeoJSONFile and (for files on its direct,
under-200MB path) handleLargeGeoJSONFile return exactly N features with
`simplified = false` when `maxFeatures ≥ N`, and exactly maxFeatures features
with `simplified = true` when `N > maxFeatures`. -/
theorem C5_full_parse_cap_and_simplified :
    ∀ content : List Char, ∀ maxF N : Nat, fcFeatureCount content = some N →
    ((N ≤ maxF → (handleGeoJSONFile content maxF).features.length = N ∧
      (handleGeoJSONFile content maxF).simplified = some false) ∧
     (maxF < N → (handleGeoJSONFile content maxF).features.length = maxF ∧
      (handleGeoJSONFile content maxF).simplified = some true)) ∧
    (content.length ≤ 200 * 1024 * 1024 →
     ((N ≤ maxF → (handleLargeGeoJSONFile content maxF).features.length = N ∧
       (handleLargeGeoJSONFile content maxF).simplified = some false) ∧
      (maxF < N → (handleLargeGeoJSONFile content maxF).features.length = maxF ∧
       (handleLargeGeoJSONFile content maxF).simplified = some true))) := by
  intro content maxF N hN
  cases hp : jsonParse content with
  | none =>
    simp only [fcFeatureCount, hp] at hN
    exact absurd hN (by simp)
  | some data =>
    simp only [fcFeatureCount, hp] at hN
    by_cases hc : (isStr (getField data "type") "FeatureCollection" &&
        isArrO (getField data "features")) = true
    · rw [if_pos hc] at hN
      have hNe : (arrItems (getField data "features")).length = N :=
        Option.some.inj hN
      have hgf : handleGeoJSONFile content maxF =
          { features := (arrItems (getField data "features")).take maxF,
            totalFeatures := some (arrItems (getField data "features")).length,
            simplified :=
              some (decide
                (maxF < (arrItems (getField data "features")).length)) } := by
        simp only [handleGeoJSONFile, hp, handleParsed, if_pos hc]
      constructor
      · constructor
        · intro hle
          rw [hgf]
          constructor
          · simp [List.length_take, hNe]; omega
          · simp [hNe]; omega
        · intro hlt
          rw [hgf]
          constructor
          · simp [List.length_take, hNe]; omega
          · simp [hNe]; omega
      · intro hsz
        have hlgf : handleLargeGeoJSONFile content maxF =
            handleLargeDirect data maxF := by
          have h5 : ¬ (500 * 1024 * 1024 < content.length) := by omega
          have h2 : ¬ (200 * 1024 * 1024 < content.length) := by omega
          simp only [handleLargeGeoJSONFile, handleLargeAttempt, if_neg h5,
            if_neg h2, hp]
        have hld : handleLargeDirect data maxF =
            { features := (arrItems (getField data "features")).take maxF,
              totalFeatures := some (arrItems (getField data "features")).length,
              simplified :=
                some (decide
                  (maxF < (arrItems (getField data "features")).length)),
              crs := if truthyO (getField data "crs")
                     then some ((getField data "crs").getD .null) else none,
              name := if truthyO (getField data "name")
                      then some ((getField data "name").getD .null) else none } := by
          simp only [handleLargeDirect, if_pos hc]
        constructor
        · intro hle
          rw [hlgf, hld]
          constructor
          · simp [List.length_take, hNe]; omega
          · simp [hNe]; omega
        · intro hlt
          rw [hlgf, hld]
          constructor
          · simp [List.length_take, hNe]; omega
          · simp [hNe]; omega
    · rw [if_neg hc] at hN
      exact absurd hN (by simp)

/-- Witness for C5: the two-feature collection with `maxFeatures = 1` yields
one feature marked simplified. -/
theorem C5_witness :
    (handleGeoJSONFile c5file 1).features.length = 1 ∧
    (handleGeoJSONFile c5file 1).simplified = some true :=
  ((C5_full_parse_cap_and_simplified c5file 1 2 (by decide)).1).2 (by decide)

/-- C6: the carried-over remainder is bounded: the loop body's final trim
keeps the remainder at, or brings it under, five chunk sizes (keeping only
the most recent two chunk sizes, a suffix, when the cap is exceeded), every
continuing loop-body pass emits a remainder within the cap, and hence the
remainder is within the cap at the start of every iteration of the loop. -/
theorem C6_remainder_cap_invariant :
    (∀ r : List Char, (trimRemainder r).length ≤ CHUNK_SIZE * 5 ∧
       (CHUNK_SIZE * 5 < r.length →
         trimRemainder r = r.drop (r.length - CHUNK_SIZE * 2) ∧
         (trimRemainder r).length = CHUNK_SIZE * 2 ∧
         trimRemainder r <:+ r)) ∧
    (∀ (content : List Char) (maxF : Nat) (st st' : ExtState),
       extractBody content maxF st = .next st' →
       st'.remainder.length ≤ CHUNK_SIZE * 5) ∧
    (∀ (content : List Char) (maxF n : Nat) (st : ExtState),
       nthState content maxF n = some st →
       st.remainder.length ≤ CHUNK_SIZE * 5) :=
  ⟨fun r => ⟨trimRemainder_length_le r, fun h => trimRemainder_trims r h⟩,
   extractBody_next_remainder_le, nthState_remainder_le⟩

/-- Witness for C6: the loop's initial state is within the cap, and the trim
of a string one byte over the cap keeps its most recent two chunk sizes. -/
theorem C6_witness :
    ((extractInit c2file).remainder.length ≤ CHUNK_SIZE * 5) ∧
    trimRemainder (List.replicate (CHUNK_SIZE * 5 + 1) 'x') =
      (List.replicate (CHUNK_SIZE * 5 + 1) 'x').drop
        ((List.replicate (CHUNK_SIZE * 5 + 1) 'x').length - CHUNK_SIZE * 2) :=
  ⟨C6_remainder_cap_invariant.2.2 c2file 5 0 (extractInit c2file) rfl,
   ((C6_remainder_cap_invariant.1 (List.replicate (CHUNK_SIZE * 5 + 1) 'x')).2
     (by simp)).1⟩

/-- C8 (amended): for every existing input file, processGiantFileSimplified
returns a well-formed FeatureCollection without throwing, with at most
maxFeatures features collected from the four quartile windows; it marks the
output `_simplified: true` with an explanatory `_note`, records the count in
`_totalFeatures`, and sets no error — but no `sample` or `emergency` field
exists anywhere in the code, so those markers are never set. -/
theorem C8_sampler_total_marked_capped :
    ∀ (content : List Char) (maxF : Nat),
      (processGiantFileSimplified content maxF).features.length ≤ maxF ∧
      (processGiantFileSimplified content maxF).simplified = some true ∧
      (processGiantFileSimplified content maxF).note =
        some "This is a sample of features from across the file" ∧
      (processGiantFileSimplified content maxF).totalFeatures =
        some (processGiantFileSimplified content maxF).features.length ∧
      (processGiantFileSimplified content maxF).error = none ∧
      (processGiantFileSimplified content maxF).sample = none ∧
      (processGiantFileSimplified content maxF).emergency = none := by
  intro content maxF
  refine ⟨?_, rfl, rfl, rfl, rfl, rfl, rfl⟩
  exact giantFold_length_le content maxF _ [] (by simp)

/-- Counterexample for C8 as stated: on a concrete corrupt file the sampler's
result carries no `sample: true` marker (and no `emergency` marker) — the
code only sets `_simplified` and `_note`. -/
theorem C8_no_sample_marker :
    (processGiantFileSimplified c8file 5).sample = none ∧
    (processGiantFileSimplified c8file 5).emergency = none ∧
    (processGiantFileSimplified c8file 5).simplified = some true ∧
    (processGiantFileSimplified c8file 5).features.length ≤ 5 :=
  ⟨rfl, rfl, rfl, by decide⟩

/-- C9: the recursive search findPotentialFeatures has no depth cap: on an
n-deep chain of nested objects its call-stack depth is exactly n + 1, so no
constant bounds the recursion depth over all inputs (refuting the claimed
fixed cap; the spec itself flags the missing bound as a latent defect). -/
theorem C9_findPotentialFeatures_depth_unbounded :
    (∀ n : Nat, fpfDepthTop (nestObj n) [] 1000 = n + 1) ∧
    (∀ c : Nat, ∃ j : JSON, c < fpfDepthTop j [] 1000) :=
  ⟨fpfDepthTop_nestObj,
   fun c => ⟨nestObj c, by rw [fpfDepthTop_nestObj]; omega⟩⟩

/-- C10: convertEsriGeometry always yields a non-null object with a `type`
field; in particular it returns the default empty polygon when the source
geometry is absent, and when the geometry is truthy but has no `type` field
and matches none of the recognized ESRI shapes. -/
theorem C10_convertEsriGeometry_always_typed_geometry :
    (∀ g t : Option JSON, ∃ kvs, convertEsriGeometry g t = JSON.obj kvs ∧
        (kvs.lookup "type").isSome) ∧
    (∀ t : Option JSON, convertEsriGeometry none t = defaultPolygon) ∧
    (∀ g t : Option JSON, truthyO g = true →
        truthyO (getFieldO g "type") = false →
        isStr t "esriGeometryPolygon" = false →
        truthyO (getFieldO g "rings") = false →
        isStr t "esriGeometryPolyline" = false →
        truthyO (getFieldO g "paths") = false →
        isStr t "esriGeometryPoint" = false →
        ((getFieldO g "x").isSome && (getFieldO g "y").isSome) = false →
        isStr t "esriGeometryMultiPoint" = false →
        truthyO (getFieldO g "points") = false →
        convertEsriGeometry g t = defaultPolygon) := by
  refine ⟨convertEsri_obj_type, fun t => rfl, ?_⟩
  intro g t h1 h2 h3 h4 h5 h6 h7 h8 h9 h10
  unfold convertEsriGeometry
  simp [h1, h2, h3, h4, h5, h6, h7, h8, h9, h10]

/-- Witness for C10: a truthy geometry of unrecognized shape with an unknown
geometry type converts to the default empty polygon. -/
theorem C10_witness :
    convertEsriGeometry (some (JSON.obj [("foo", JSON.num 1)]))
      (some (JSON.str "bogus")) = defaultPolygon :=
  C10_convertEsriGeometry_always_typed_geometry.2.2
    (some (JSON.obj [("foo", JSON.num 1)])) (some (JSON.str "bogus"))
    (by decide) (by decide) (by decide) (by decide) (by decide) (by decide)
    (by decide) (by decide) (by decide) (by decide)

/-- Modelled from the spec: the reference JSON string lexer — inside a
string, an escape consumes the next character (so escaped quotes and escaped
backslashes stay inside the string); an unescaped quote closes it; outside a
string, a quote opens one. -/
def refLexStep (p : Bool × Bool) (c : Char) : Bool × Bool :=
  if p.1 then
    if p.2 then (true, false)
    else if c = '\\' then (true, true)
    else if c = '"' then (false, false)
    else (true, false)
  else if c = '"' then (true, false)
  else (false, false)

/-- The code's quote/escape state after a prefix. -/
def codeLexFold (cs : List Char) : Bool × Bool :=
  cs.foldl (fun q c => lexStep q.1 q.2 c) (false, false)

/-- The reference lexer's state after a prefix. -/
def refLexFold (cs : List Char) : Bool × Bool :=
  cs.foldl refLexStep (false, false)

theorem lexStep_eq_ref (p : Bool × Bool) (c : Char)
    (hinv : p.1 = false → p.2 = false) :
    lexStep p.1 p.2 c = refLexStep p c := by
  obtain ⟨i, e⟩ := p
  cases i with
  | false =>
    cases e with
    | true => exact absurd (hinv rfl) (by simp)
    | false =>
      by_cases hq : c = '"' <;> by_cases hb : c = '\\' <;>
        simp_all [lexStep, refLexStep]
  | true =>
    cases e with
    | true =>
      by_cases hq : c = '"' <;> by_cases hb : c = '\\' <;>
        simp_all [lexStep, refLexStep]
    | false =>
      by_cases hq : c = '"' <;> by_cases hb : c = '\\' <;>
        simp_all [lexStep, refLexStep]

theorem lexStep_inv (i e : Bool) (c : Char) :
    (lexStep i e c).1 = false → (lexStep i e c).2 = false := by
  unfold lexStep
  dsimp only
  intro h
  rw [h]
  simp

theorem foldl_lex_eq : ∀ (cs : List Char) (p : Bool × Bool),
    (p.1 = false → p.2 = false) →
    cs.foldl (fun q c => lexStep q.1 q.2 c) p = cs.foldl refLexStep p := by
  intro cs
  induction cs with
  | nil => intro p _; rfl
  | cons c rest ih =>
    intro p hinv
    simp only [List.foldl_cons]
    rw [lexStep_eq_ref p c hinv]
    refine ih _ ?_
    rw [← lexStep_eq_ref p c hinv]
    exact lexStep_inv p.1 p.2 c

theorem codeLex_eq_refLex (cs : List Char) : codeLexFold cs = refLexFold cs :=
  foldl_lex_eq cs (false, false) (by simp)

/-- The lexer-and-depth core of one forward-scan step (start offsets and
feature collection stripped away). -/
def coreStep (p : Bool × Bool × Int) (c : Char) : Bool × Bool × Int :=
  let l := lexStep p.1 p.2.1 c
  if l.1 then (l.1, l.2, p.2.2)
  else if c = lbrace then (l.1, l.2, p.2.2 + 1)
  else if c = rbrace then (l.1, l.2, p.2.2 - 1)
  else (l.1, l.2, p.2.2)

/-- The lexer/depth projection of a scan state. -/
def scanCoreProj (st : ScanSt) : Bool × Bool × Int :=
  (st.inString, st.escape, st.depth)

theorem scanStep_core (text : List Char) (i : Nat) (c : Char) (st : ScanSt) :
    scanCoreProj (scanStep text i c st) = coreStep (scanCoreProj st) c := by
  unfold scanStep coreStep scanCoreProj
  dsimp only
  split_ifs with h1 h2 h3 <;>
    first
      | rfl
      | (cases st.start <;> rfl)

theorem scanGo_core : ∀ (rest text : List Char) (i : Nat) (st : ScanSt),
    scanCoreProj (scanGo text rest i st) =
      rest.foldl coreStep (scanCoreProj st) := by
  intro rest
  induction rest with
  | nil => intro text i st; rfl
  | cons c rs ih =>
    intro text i st
    simp only [scanGo, List.foldl_cons]
    rw [ih, scanStep_core]

theorem core_lex : ∀ (cs : List Char) (p : Bool × Bool × Int),
    ((cs.foldl coreStep p).1, (cs.foldl coreStep p).2.1) =
      cs.foldl (fun q c => lexStep q.1 q.2 c) (p.1, p.2.1) := by
  intro cs
  induction cs with
  | nil => intro p; rfl
  | cons c rs ih =>
    intro p
    simp only [List.foldl_cons]
    rw [ih]
    congr 1
    unfold coreStep
    dsimp only
    split_ifs <;> rfl

theorem coreStep_brace_in_string (p : Bool × Bool × Int) (c : Char)
    (hc : c = lbrace ∨ c = rbrace) (hin : p.1 = true) :
    (coreStep p c).2.2 = p.2.2 := by
  have hq : ¬ (c = '"') := by
    rcases hc with h | h <;> rw [h] <;> decide
  have hl : (lexStep p.1 p.2.1 c).1 = true := by
    simp [lexStep, hq, hin]
  simp [coreStep, hl]

theorem scanText_depth_preserved (t : List Char) (c : Char)
    (hc : c = lbrace ∨ c = rbrace) (hin : (refLexFold t).1 = true) :
    (scanText (t ++ [c])).depth = (scanText t).depth := by
  have h1 : scanCoreProj (scanText (t ++ [c])) =
      (t ++ [c]).foldl coreStep (false, false, 0) := by
    unfold scanText
    rw [scanGo_core]
    rfl
  have h2 : scanCoreProj (scanText t) = t.foldl coreStep (false, false, 0) := by
    unfold scanText
    rw [scanGo_core]
    rfl
  have hdep1 : (scanText (t ++ [c])).depth =
      ((t ++ [c]).foldl coreStep (false, false, 0)).2.2 := by
    rw [← h1]; rfl
  have hdep2 : (scanText t).depth =
      (t.foldl coreStep (false, false, 0)).2.2 := by
    rw [← h2]; rfl
  rw [hdep1, hdep2, List.foldl_append]
  simp only [List.foldl_cons, List.foldl_nil]
  refine coreStep_brace_in_string _ c hc ?_
  have hl := core_lex t ((false, false, 0) : Bool × Bool × Int)
  have : ((t.foldl coreStep (false, false, 0)).1,
      (t.foldl coreStep (false, false, 0)).2.1) = codeLexFold t := hl
  have heq : codeLexFold t = refLexFold t := codeLex_eq_refLex t
  have : (t.foldl coreStep (false, false, 0)).1 = (refLexFold t).1 := by
    rw [← heq, ← this]
  rw [this, hin]

def c4f1 : List Char :=
  ("\x7b\"type\":\"Feature\",\"properties\":\x7b\"id\":1\x7d,\"geometry\":\x7b\"type\":\"Point\",\"coordinates\":[1,2]\x7d\x7d").toList
def c4f2 : List Char :=
  ("\x7b\"type\":\"Feature\",\"properties\":\x7b\"note\":\"\x7dweird\x7b \x7b value\",\"q\":\"a\\\\\\\"b\x7d\"\x7d,\"geometry\":\x7b\"type\":\"Point\",\"coordinates\":[3,4]\x7d\x7d").toList
def c4f3 : List Char :=
  ("\x7b\"type\":\"Feature\",\"properties\":\x7b\"id\":3\x7d,\"geometry\":\x7b\"type\":\"Point\",\"coordinates\":[5,6]\x7d\x7d").toList
def c4file : List Char :=
  ("[").toList ++ c4f1 ++ (",").toList ++ c4f2 ++ (",").toList ++ c4f3 ++
    ("]").toList

/-- C4: brace characters inside JSON string literals (per the reference
string lexer, including after escaped quotes and escaped backslashes) never
affect the forward scan's brace-depth count — the code's quote/escape
tracking coincides with the reference lexer from the initial state, and a
brace read while the reference lexer is inside a string leaves the depth
unchanged; concretely, a 3-feature window whose middle feature's string
properties contain unmatched braces (and escaped quotes and backslashes) is
extracted as exactly the three parsed features. -/
theorem C4_braces_in_strings_do_not_affect_depth :
    (∀ cs : List Char, codeLexFold cs = refLexFold cs) ∧
    (∀ (t : List Char) (c : Char), (c = lbrace ∨ c = rbrace) →
        (refLexFold t).1 = true →
        (scanText (t ++ [c])).depth = (scanText t).depth) ∧
    ((extractCompleteFeatures c4file).1.length = 3 ∧
     (extractCompleteFeatures c4file).1 =
       (jsonParse c4f1).toList ++ (jsonParse c4f2).toList ++
         (jsonParse c4f3).toList) :=
  ⟨codeLex_eq_refLex, scanText_depth_preserved, rfl, rfl⟩

/-- Witness for C4: a brace right after an opening quote (the lexer is
inside a string there) leaves the depth unchanged. -/
theorem C4_witness :
    (scanText (['"'] ++ [lbrace])).depth = (scanText ['"']).depth :=
  C4_braces_in_strings_do_not_affect_depth.2.1 ['"'] lbrace (Or.inl rfl)
    (by decide)

theorem step_rel (text : List Char) (i : Nat) (c : Char) (sSt : ScanSt)
    (cSt : CandSt)
    (h1 : sSt.inString = cSt.inString) (h2 : sSt.escape = cSt.escape)
    (h3 : sSt.depth = cSt.depth) (h4 : sSt.start = cSt.start)
    (h5 : sSt.features = cSt.cands.filterMap acceptFeature) :
    (scanStep text i c sSt).inString = (candStep text i c cSt).inString ∧
    (scanStep text i c sSt).escape = (candStep text i c cSt).escape ∧
    (scanStep text i c sSt).depth = (candStep text i c cSt).depth ∧
    (scanStep text i c sSt).start = (candStep text i c cSt).start ∧
    (scanStep text i c sSt).features =
      (candStep text i c cSt).cands.filterMap acceptFeature := by
  unfold scanStep candStep
  rw [h1, h2, h3, h4, h5]
  dsimp only
  split_ifs
  all_goals try exact ⟨rfl, rfl, rfl, rfl, rfl⟩
  all_goals cases hs : cSt.start
  all_goals dsimp only
  all_goals try exact ⟨rfl, rfl, rfl, rfl, rfl⟩
  all_goals try split_ifs
  all_goals try exact ⟨rfl, rfl, rfl, rfl, rfl⟩
  all_goals refine ⟨rfl, rfl, rfl, rfl, ?_⟩
  all_goals rw [List.filterMap_append]
  all_goals rename_i s0
  all_goals cases hacc : acceptFeature ((text.drop s0).take (i + 1 - s0))
  all_goals simp [hacc]

theorem scan_cand_rel : ∀ (rest text : List Char) (i : Nat) (sSt : ScanSt)
    (cSt : CandSt),
    sSt.inString = cSt.inString → sSt.escape = cSt.escape →
    sSt.depth = cSt.depth → sSt.start = cSt.start →
    sSt.features = cSt.cands.filterMap acceptFeature →
    (scanGo text rest i sSt).features =
      (candGo text rest i cSt).cands.filterMap acceptFeature := by
  intro rest
  induction rest with
  | nil => intro text i sSt cSt _ _ _ _ h5; exact h5
  | cons c rs ih =>
    intro text i sSt cSt h1 h2 h3 h4 h5
    simp only [scanGo, candGo]
    obtain ⟨g1, g2, g3, g4, g5⟩ := step_rel text i c sSt cSt h1 h2 h3 h4 h5
    exact ih text (i + 1) _ _ g1 g2 g3 g4 g5

def c7text : List Char :=
  ("\x7b\"geometry\":\x7b\"a\":1\x7d,\"attributes\":\x7b\"b\":2\x7d\x7d").toList

/-- Counterexample for C7 as stated: a window whose single depth-0 candidate
parses as JSON and has a geometry field and an attributes field is
nevertheless discarded by the scanner, because the code additionally
requires `type === 'Feature'` and a truthy `properties` field. -/
theorem C7_attributes_candidate_rejected :
    specCandidates c7text = [c7text] ∧
    (jsonParse c7text).isSome = true ∧
    truthyO (getFieldO (jsonParse c7text) "geometry") = true ∧
    truthyO (getFieldO (jsonParse c7text) "attributes") = true ∧
    (extractCompleteFeatures c7text).1 = [] :=
  ⟨rfl, rfl, rfl, rfl, rfl⟩

/-- C7 (amended): during a boundary scan, the extracted features are exactly
the depth-0-delimited candidate substrings filtered by the code's acceptance
test, and a candidate is accepted iff it parses as JSON with
`type === 'Feature'` and truthy `properties` and `geometry` fields; all
other candidates are silently discarded while scanning continues. -/
theorem C7_candidates_filtered_by_accept :
    (∀ text : List Char,
       (extractCompleteFeatures text).1 =
         (specCandidates text).filterMap acceptFeature) ∧
    (∀ s : List Char, (acceptFeature s).isSome = true ↔
       ∃ f, jsonParse s = some f ∧
         isStr (getField f "type") "Feature" = true ∧
         truthyO (getField f "properties") = true ∧
         truthyO (getField f "geometry") = true) := by
  constructor
  · intro text
    unfold extractCompleteFeatures specCandidates scanText
    dsimp only
    exact scan_cand_rel text text 0 scanInit candInit rfl rfl rfl rfl rfl
  · intro s
    cases hp : jsonParse s with
    | none => simp [acceptFeature, hp]
    | some f =>
      simp only [acceptFeature, hp]
      constructor
      · intro h
        split_ifs at h with hc
        · rw [Bool.and_eq_true, Bool.and_eq_true] at hc
          exact ⟨f, rfl, hc.1.1, hc.1.2, hc.2⟩
        · simp at h
      · rintro ⟨g, hg, ht, hpr, hge⟩
        obtain rfl : f = g := Option.some.inj hg
        rw [if_pos (by rw [ht, hpr, hge]; rfl)]
        rfl

theorem fpf_bound : ∀ fuel : Nat,
    (∀ (j : JSON) (features : List JSON) (maxF : Nat),
       features.length ≤ maxF →
       (findPotentialFeatures fuel j features maxF).length ≤ maxF) ∧
    (∀ (l : List (String × JSON)) (features : List JSON) (maxF : Nat),
       features.length ≤ maxF →
       (fpfFields fuel l features maxF).length ≤ maxF) ∧
    (∀ (l : List JSON) (features : List JSON) (maxF : Nat),
       features.length ≤ maxF →
       (fpfElems fuel l features maxF).length ≤ maxF) ∧
    (∀ (l : List JSON) (features : List JSON) (maxF : Nat),
       features.length ≤ maxF →
       (fpfItems fuel l features maxF).length ≤ maxF) := by
  intro fuel
  induction fuel with
  | zero =>
    refine ⟨?_, ?_, ?_, ?_⟩
    · intro j features maxF h; simpa [findPotentialFeatures] using h
    · intro l features maxF h; simpa [fpfFields] using h
    · intro l features maxF h; simpa [fpfElems] using h
    · intro l features maxF h; simpa [fpfItems] using h
  | succ f ih =>
    obtain ⟨ih1, ih2, ih3, ih4⟩ := ih
    refine ⟨?_, ?_, ?_, ?_⟩
    · intro j features maxF h
      unfold findPotentialFeatures
      split_ifs with hcap hobj hfeat hgeom
      · exact h
      · exact h
      · simp only [List.length_append, List.length_cons, List.length_nil]
        omega
      · simp only [List.length_append, List.length_cons, List.length_nil]
        omega
      · cases j with
        | obj fs => exact ih2 fs features maxF h
        | arr its => exact ih3 its features maxF h
        | null => exact h
        | bool b => exact h
        | num q => exact h
        | str s => exact h
    · intro l features maxF h
      cases l with
      | nil => simpa [fpfFields] using h
      | cons p rest =>
        obtain ⟨k, v⟩ := p
        unfold fpfFields
        dsimp only
        refine ih2 rest _ maxF ?_
        split_ifs with hv
        · cases v with
          | arr items => exact ih4 items _ maxF (ih1 _ features maxF h)
          | obj fs => exact ih1 _ features maxF h
          | null => exact ih1 _ features maxF h
          | bool b => exact ih1 _ features maxF h
          | num q => exact ih1 _ features maxF h
          | str s => exact ih1 _ features maxF h
        · exact h
    · intro l features maxF h
      cases l with
      | nil => simpa [fpfElems] using h
      | cons v rest =>
        unfold fpfElems
        dsimp only
        refine ih3 rest _ maxF ?_
        split_ifs with hv
        · cases v with
          | arr items => exact ih4 items _ maxF (ih1 _ features maxF h)
          | obj fs => exact ih1 _ features maxF h
          | null => exact ih1 _ features maxF h
          | bool b => exact ih1 _ features maxF h
          | num q => exact ih1 _ features maxF h
          | str s => exact ih1 _ features maxF h
        · exact h
    · intro l features maxF h
      cases l with
      | nil => simpa [fpfItems] using h
      | cons it rest =>
        unfold fpfItems
        dsimp only
        refine ih4 rest _ maxF ?_
        split_ifs with hv
        · exact ih1 _ features maxF h
        · exact h

theorem layersInner_bound (layer : JSON) :
    ∀ (l features : List JSON) (count maxF : Nat),
      features.length ≤ maxF →
      (layersInner layer l features count maxF).1.length ≤ maxF := by
  intro l
  induction l with
  | nil => intro features count maxF h; simpa [layersInner] using h
  | cons f rest ih =>
    intro features count maxF h
    unfold layersInner
    split_ifs with hcap
    · exact h
    · refine ih _ _ maxF ?_
      simp only [List.length_append, List.length_cons, List.length_nil]
      omega

theorem layersInner_count (layer : JSON) :
    ∀ (l features : List JSON) (count maxF : Nat),
      (layersInner layer l features count maxF).2 + features.length =
        (layersInner layer l features count maxF).1.length + count := by
  intro l
  induction l with
  | nil => intro features count maxF; simp [layersInner]; omega
  | cons f rest ih =>
    intro features count maxF
    unfold layersInner
    split_ifs with hcap
    · dsimp only; omega
    · have := ih (features ++ [convertLayerFeature layer f]) (count + 1) maxF
      simp only [List.length_append, List.length_cons, List.length_nil] at this ⊢
      omega

theorem layersOuter_bound :
    ∀ (ls features : List JSON) (count maxF : Nat),
      features.length ≤ maxF →
      (layersOuter ls features count maxF).1.length ≤ maxF := by
  intro ls
  induction ls with
  | nil => intro features count maxF h; simpa [layersOuter] using h
  | cons layer rest ih =>
    intro features count maxF h
    unfold layersOuter
    dsimp only
    split_ifs with hl hcap
    · exact layersInner_bound layer _ features count maxF h
    · exact ih _ _ maxF (layersInner_bound layer _ features count maxF h)
    · exact h
    · exact ih _ _ maxF h

theorem layersOuter_count :
    ∀ (ls features : List JSON) (count maxF : Nat),
      (layersOuter ls features count maxF).2 + features.length =
        (layersOuter ls features count maxF).1.length + count := by
  intro ls
  induction ls with
  | nil => intro features count maxF; simp [layersOuter]; omega
  | cons layer rest ih =>
    intro features count maxF
    unfold layersOuter
    dsimp only
    split_ifs with hl hcap
    · exact layersInner_count layer _ features count maxF
    · have h1 := layersInner_count layer (arrItems (getField layer "features"))
        features count maxF
      have h2 := ih (layersInner layer (arrItems (getField layer "features"))
          features count maxF).1
        (layersInner layer (arrItems (getField layer "features"))
          features count maxF).2 maxF
      omega
    · dsimp only; omega
    · have h2 := ih features count maxF
      dsimp only at h2 ⊢
      omega
theorem pwcStep_inv (text : List Char) (maxF i : Nat) (c : Char) (st : PwcSt)
    (hb : st.features.length ≤ maxF)
    (hd : st.done = false → st.features.length < maxF) :
    (pwcStep text maxF i c st).features.length ≤ maxF ∧
    ((pwcStep text maxF i c st).done = false →
      (pwcStep text maxF i c st).features.length < maxF) := by
  unfold pwcStep
  dsimp only
  split_ifs with h0 h1 h2 h3 h4 h5
  all_goals try exact ⟨hb, hd⟩
  · have hlt : st.features.length < maxF := hd (by revert h0; cases st.done <;> simp)
    cases hp : jsonParse
        ((text.drop st.featureStart).take (i + 1 - st.featureStart)) with
    | none => simp only [hp]; exact ⟨hb, fun _ => hlt⟩
    | some f =>
      simp only [hp]
      split_ifs with hok
      · refine ⟨?_, ?_⟩
        · dsimp only
          simp only [List.length_append, List.length_cons, List.length_nil]
          omega
        · dsimp only
          intro hdone
          simp only [decide_eq_false_iff_not, not_le] at hdone
          exact hdone
      · exact ⟨hb, fun _ => hlt⟩

theorem pwcGo_inv : ∀ (rest text : List Char) (maxF i : Nat) (st : PwcSt),
    st.features.length ≤ maxF →
    (st.done = false → st.features.length < maxF) →
    (pwcGo text maxF rest i st).features.length ≤ maxF := by
  intro rest
  induction rest with
  | nil => intro text maxF i st hb _; exact hb
  | cons c rs ih =>
    intro text maxF i st hb hd
    obtain ⟨hb2, hd2⟩ := pwcStep_inv text maxF i c st hb hd
    exact ih text maxF (i + 1) _ hb2 hd2

theorem pwcScan_bound (text : List Char) (maxF : Nat) (h1 : 1 ≤ maxF) :
    (pwcScan text maxF).length ≤ maxF := by
  unfold pwcScan
  exact pwcGo_inv text text maxF 0 _ (by simp) (fun _ => by simpa using h1)

theorem processWithChunks_ok_bound (content : List Char) (maxF : Nat)
    (h1 : 1 ≤ maxF) :
    ∀ r, processWithChunks content maxF = .ok r →
      r.features.length ≤ maxF := by
  intro r h
  simp only [processWithChunks] at h
  cases hm : regexFC (content.take CHUNK_SIZE_chunks) with
  | some pr =>
    rw [hm] at h
    dsimp only at h
    split_ifs at h
    all_goals try (cases h; dsimp only; exact pwcScan_bound _ maxF h1)
    all_goals try dsimp only at h
    all_goals
      cases hp : jsonParse content with
      | none => rw [hp] at h; exact Except.noConfusion h
      | some data =>
        rw [hp] at h
        dsimp only at h
        split_ifs at h with hfc
        all_goals
          first
            | exact Except.noConfusion h
            | (cases h; dsimp only; simp [List.length_take])
  | none =>
    rw [hm] at h
    dsimp only at h
    cases hp : jsonParse content with
    | none => rw [hp] at h; exact Except.noConfusion h
    | some data =>
      rw [hp] at h
      dsimp only at h
      split_ifs at h with hfc
      all_goals
        first
          | exact Except.noConfusion h
          | (cases h; dsimp only; simp [List.length_take])

theorem extractFeaturesFromFile_bound (content : List Char) (maxF : Nat) :
    (extractFeaturesFromFile content maxF).length ≤ maxF := by
  unfold extractFeaturesFromFile
  cases h : extractLoop content maxF (2 * content.length + 2)
      (extractInit content) with
  | some st => simp [List.length_take]
  | none => simp

theorem processLargeCaliforniaFile_ok_bound (content : List Char) (maxF : Nat) :
    ∀ r, processLargeCaliforniaFile content maxF = .ok r →
      r.features.length ≤ maxF := by
  intro r h
  simp only [processLargeCaliforniaFile] at h
  cases hm : regexFC (content.take (5 * 1024 * 1024)) with
  | none => rw [hm] at h; exact Except.noConfusion h
  | some pr =>
    rw [hm] at h
    cases h
    exact extractFeaturesFromFile_bound content maxF

theorem handleLargeDirect_bound (data : JSON) (maxF : Nat) :
    (handleLargeDirect data maxF).features.length ≤ maxF := by
  unfold handleLargeDirect
  split_ifs <;> simp [List.length_take]

theorem handleLargeAttempt_ok_bound (content : List Char) (maxF : Nat)
    (h1 : 1 ≤ maxF) :
    ∀ r, handleLargeAttempt content maxF = .ok r →
      r.features.length ≤ maxF := by
  intro r h
  unfold handleLargeAttempt at h
  split_ifs at h with h5 h2
  · exact processLargeCaliforniaFile_ok_bound content maxF r h
  · exact processWithChunks_ok_bound content maxF h1 r h
  · cases hp : jsonParse content with
    | some data =>
      rw [hp] at h
      cases h
      exact handleLargeDirect_bound data maxF
    | none =>
      rw [hp] at h
      dsimp only at h
      cases hp2 : jsonParse (fixBrokenJson content) with
      | some data =>
        rw [hp2] at h
        cases h
        exact handleLargeDirect_bound data maxF
      | none => rw [hp2] at h; exact Except.noConfusion h

theorem handleLargeGeoJSONFile_bound (content : List Char) (maxF : Nat)
    (h1 : 1 ≤ maxF) :
    (handleLargeGeoJSONFile content maxF).features.length ≤ maxF := by
  unfold handleLargeGeoJSONFile
  cases ha : handleLargeAttempt content maxF with
  | ok r => exact handleLargeAttempt_ok_bound content maxF h1 r ha
  | error e =>
    cases hw : processWithChunks content maxF with
    | ok r => exact processWithChunks_ok_bound content maxF h1 r hw
    | error e2 => exact giantFold_length_le content maxF _ [] (by simp)

theorem handleParsed_bound (data : JSON) (maxF : Nat) (h1 : 1 ≤ maxF) :
    (handleParsed data maxF).features.length ≤ maxF ∧
    (∀ t, (handleParsed data maxF).totalFeatures = some t →
      (handleParsed data maxF).features.length < t →
      (handleParsed data maxF).simplified = some true) := by
  unfold handleParsed
  split_ifs with c1 c2 c3 c4 c5 c6
  · -- FeatureCollection path
    refine ⟨by dsimp only; simp [List.length_take], ?_⟩
    dsimp only
    intro t ht hlt
    obtain rfl := Option.some.inj ht
    simp only [List.length_take] at hlt
    simp only [Option.some.injEq, decide_eq_true_eq]
    omega
  · -- non-standard features-array path
    refine ⟨by dsimp only; simp [List.length_take], ?_⟩
    dsimp only
    intro t ht hlt
    obtain rfl := Option.some.inj ht
    simp only [List.length_map, List.length_take] at hlt
    simp only [Option.some.injEq, decide_eq_true_eq]
    omega
  · -- ESRI path
    refine ⟨by dsimp only; simp [List.length_take], ?_⟩
    dsimp only
    intro t ht hlt
    obtain rfl := Option.some.inj ht
    simp only [List.length_map, List.length_take] at hlt
    simp only [Option.some.injEq, decide_eq_true_eq]
    omega
  · -- single Feature path
    refine ⟨by simpa using h1, ?_⟩
    intro t ht hlt
    obtain rfl := Option.some.inj ht
    simp at hlt
  · -- bare geometry path
    refine ⟨by simpa using h1, ?_⟩
    intro t ht hlt
    obtain rfl := Option.some.inj ht
    simp at hlt
  · -- layers path
    have hcnt := layersOuter_count (arrItems (getField data "layers")) [] 0 maxF
    have hbnd := layersOuter_bound (arrItems (getField data "layers")) [] 0 maxF
      (by simp)
    refine ⟨by dsimp only; exact hbnd, ?_⟩
    dsimp only
    intro t ht hlt
    obtain rfl := Option.some.inj ht
    simp only [List.length_nil] at hcnt
    omega
  · -- potential-features / empty path
    have hbnd : (findPotentialFeaturesTop data [] maxF).length ≤ maxF :=
      (fpf_bound (jsize data + 1)).1 data [] maxF (by simp)
    dsimp only
    by_cases hpf : 0 < (findPotentialFeaturesTop data [] maxF).length
    · rw [if_pos hpf]
      refine ⟨hbnd, ?_⟩
      intro t ht hlt
      obtain rfl := Option.some.inj ht
      dsimp only at hlt
      exact absurd hlt (lt_irrefl _)
    · rw [if_neg hpf]
      refine ⟨by simp, ?_⟩
      intro t ht
      exact absurd ht (by simp)

def c1single : List Char :=
  "\x7b\"type\":\"Feature\",\"geometry\":\x7b\"a\":1\x7d\x7d".toList

/-- C1 (counterexample): on the single-Feature path the handler pushes the
document unconditionally, so with maxFeatures = 0 it returns 1 feature,
violating `features.length <= maxFeatures`. -/
theorem C1_single_feature_exceeds_zero_cap :
    (handleGeoJSONFile c1single 0).features.length = 1 ∧
    ¬ ((handleGeoJSONFile c1single 0).features.length ≤ 0) := by
  exact ⟨by decide, by decide⟩

/-- C1 (amended): for every input and every maxFeatures ≥ 1, both entry
points return at most maxFeatures features, and handleGeoJSONFile sets
`_simplified = true` whenever the recorded `_totalFeatures` exceeds the
number of features returned. -/
theorem C1_feature_cap_and_simplified_flag (content : List Char) (maxF : Nat)
    (h1 : 1 ≤ maxF) :
    (handleGeoJSONFile content maxF).features.length ≤ maxF ∧
    (∀ t, (handleGeoJSONFile content maxF).totalFeatures = some t →
      (handleGeoJSONFile content maxF).features.length < t →
      (handleGeoJSONFile content maxF).simplified = some true) ∧
    (handleLargeGeoJSONFile content maxF).features.length ≤ maxF := by
  refine ⟨?_, ?_, handleLargeGeoJSONFile_bound content maxF h1⟩
  · cases hp : jsonParse content with
    | none => simp [handleGeoJSONFile, hp]
    | some data =>
      simp only [handleGeoJSONFile, hp]
      exact (handleParsed_bound data maxF h1).1
  · cases hp : jsonParse content with
    | none =>
      intro t ht
      rw [handleGeoJSONFile, hp] at ht
      exact absurd ht (by simp)
    | some data =>
      simp only [handleGeoJSONFile, hp]
      exact (handleParsed_bound data maxF h1).2

theorem C1_witness :
    1 ≤ 1 ∧
    ((handleGeoJSONFile c1single 1).features.length ≤ 1 ∧
     (∀ t, (handleGeoJSONFile c1single 1).totalFeatures = some t →
       (handleGeoJSONFile c1single 1).features.length < t →
       (handleGeoJSONFile c1single 1).simplified = some true) ∧
     (handleLargeGeoJSONFile c1single 1).features.length ≤ 1) :=
  ⟨by decide, C1_feature_cap_and_simplified_flag c1single 1 (by decide)⟩
